import Mathlib

/-!
Shallow embedding of `rocketwatch/utils/rocketpool.py` (class `RocketPool`).

The python class keeps four pieces of mutable state:
  * `self.addresses` — a `bidict` (bijective dict) from contract names to
    on-chain addresses, seeded from `cfg["rocketpool.manual_addresses"]`;
  * three class-level `FIFOCache(maxsize=2048)` caches, used through the
    `@cached(...)` decorator: `ADDRESS_CACHE` (name → address),
    `ABI_CACHE` (name → decoded abi), `CONTRACT_CACHE`
    (call-argument tuple → assembled contract).

We model addresses as `Nat` (the code checks `w3.toInt(hexstr=address)`,
so the zero address is the value `0`), names and abi strings as `String`,
and the process-wide chain / filesystem / configuration environment as an
explicit `Env` record.  All stateful methods are embedded as functions
`Env → Nat → RPState → ... → RPState × Except RPError α`: python
exceptions propagate while keeping the side effects already performed, so
the state is returned in both the ok and the error case.  The `Nat`
argument is recursion fuel: `uncached_get_address_by_name` resolves the
`"rocketStorage"` contract recursively, which in python diverges with a
`RecursionError` when that name is not resolvable, and this is modelled
by the `.outOfFuel` error.

Ghost instrumentation: `addrLookups` / `abiLookups` record, newest first,
the names for which the chain `getAddress` / `getString` storage queries
were actually performed, so that claims about "at most one chain lookup"
are statable.  No code path branches on these fields.
-/

namespace RocketPool

/-- Errors of the embedded code.  `notFound` is the
`Exception(f"No address found ...")` / `Exception(f"No abi found ...")`
raise, `valueDuplication` is the `bidict` `ValueDuplicationError` family
raised by `self.addresses[name] = address` when the address is already
bound to a different name, `invalidPath` is the
`Exception("Invalid contract path ...")` raise (carrying the observed
part count), and `outOfFuel` stands for python's `RecursionError`. -/
inductive RPError where
  | notFound (name : String)
  | valueDuplication
  | invalidPath (parts : Nat)
  | outOfFuel
deriving DecidableEq, Repr

/-- An abi value as it flows through `assemble_contract`: either the raw
contents of a local `./contracts/{name}.abi.json` file, or the result of
`decode_abi` applied to the compressed string read from the chain. -/
inductive AbiSrc where
  | localFile (contents : String)
  | chainDecoded (compressed : String)
deriving DecidableEq, Repr

/-- Modelled from the spec: `utils/readable.decode_abi` is repository code
that is not under `src/`.  The spec says it decompresses/decodes the
on-chain compressed string into structured abi form; we model it as the
injective constructor tagging the compressed string. -/
def decode_abi (compressed : String) : AbiSrc := .chainDecoded compressed

/-- The `w3.eth.contract(address=..., abi=...)` /
`mainnet_w3.eth.contract(address=..., abi=...)` result: an immutable
handle binding an abi to an address on one of the two networks. -/
structure Contract where
  address : Nat
  abi : AbiSrc
  onMainnet : Bool
deriving DecidableEq, Repr

/-- The value of `contract.functions[function](*args)`: a bound, not yet
executed call. -/
structure BoundCall where
  contract : Contract
  fname : String
  args : List Nat
deriving DecidableEq, Repr

/-- The dict of exact call parameters that `get_revert_reason` passes to
`w3.eth.call`. -/
structure CallParams where
  fromAddr : Nat
  toAddr : Nat
  input : String
  gas : Nat
  gasPrice : Nat
  value : Nat
deriving DecidableEq, Repr

/-- A mined transaction, as consumed by `get_revert_reason`. -/
structure Tnx where
  fromAddr : Nat
  toAddr : Nat
  input : String
  gas : Nat
  gasPrice : Nat
  value : Nat
  blockNumber : Nat
deriving DecidableEq, Repr

/-- Outcome of replaying a transaction via `w3.eth.call`: normal return,
a `ContractLogicError` (chain-reported revert, carrying `err.args`), or a
`ValueError` (generic JSON-RPC invocation error, carrying
`err.args[0]["code"]`). -/
inductive ReplayOutcome where
  | success
  | contractLogicError (args : List String)
  | valueError (code : Int)
deriving DecidableEq, Repr

/-- One receipt log entry as seen by
`events.DepositEvent().processReceipt`: either a log that decodes as the
well-known casper `DepositEvent` (carrying its pubkey bytes), or any
other / undecodable log entry, for which web3 emits a warning (suppressed
by the `warnings.catch_warnings` block) and skips the entry. -/
inductive LogEntry where
  | deposit (pubkey : List Nat)
  | mismatched
deriving DecidableEq, Repr

/-- The mutable state of the `RocketPool` instance.  `addresses` is the
`bidict` (as an association list, oldest entry first), the three
`_cache` fields are the `FIFOCache(maxsize=2048)` contents (insertion
order, oldest first), `multicall` records whether the
`Multicall(w3.eth)` construction in `flush` succeeded, and
`addrLookups` / `abiLookups` are ghost logs of performed chain storage
queries (newest first). -/
structure RPState where
  addresses : List (String × Nat)
  address_cache : List (String × Nat)
  abi_cache : List (String × AbiSrc)
  contract_cache : List ((String × Nat × Option Bool) × Contract)
  multicall : Bool
  addrLookups : List String
  abiLookups : List String
deriving DecidableEq, Repr

/-- The external world: the chain (storage contract answers, transaction
replay, call execution, gas estimation), the filesystem of local abi
override files, and the static configuration. -/
structure Env where
  storageAddress : String → Nat
  storageAbi : String → String
  localAbi : String → Option String
  manual_addresses : List (String × Nat)
  multicallOk : Bool
  replay : CallParams → Nat → ReplayOutcome
  callResult : BoundCall → String → Nat
  estimateGasResult : BoundCall → Nat → String → Nat

deriving instance DecidableEq for Except

/-- Forward lookup in an association list (python `d[k]` / `k in d`). -/
def lookupKey {α β : Type} [DecidableEq α] : List (α × β) → α → Option β
  | [], _ => none
  | p :: ps, k => if p.1 = k then some p.2 else lookupKey ps k

/-- Inverse lookup in an association list
(python `d.inverse.get(v, None)`). -/
def lookupVal {α β : Type} [DecidableEq β] : List (α × β) → β → Option α
  | [], _ => none
  | p :: ps, v => if p.2 = v then some p.1 else lookupVal ps v

/-- Embeds `bidict.__setitem__` (`self.addresses[name] = address`): writing an
already present item is a no-op; a value already bound to a *different*
key raises (`ValueDuplicationError` / `KeyAndValueDuplicationError`,
merged into one error here) and leaves the bidict unchanged; otherwise
any old value under the same key is dropped and the new item stored. -/
def bidict_put {α β : Type} [DecidableEq α] [DecidableEq β]
    (m : List (α × β)) (k : α) (v : β) : Except RPError (List (α × β)) :=
  if (k, v) ∈ m then .ok m
  else if ∃ p ∈ m, p.2 = v ∧ p.1 ≠ k then .error .valueDuplication
  else .ok (m.filter (fun p => p.1 ≠ k) ++ [(k, v)])

/-- Embeds `FIFOCache.__setitem__` with `getsizeof = 1`: updating an existing
key rewrites its value and refreshes its insertion order; inserting a new
key first evicts oldest-inserted entries until below capacity. -/
def fifoInsert {α β : Type} [DecidableEq α]
    (cap : Nat) (c : List (α × β)) (k : α) (v : β) : List (α × β) :=
  if (lookupKey c k).isSome then c.filter (fun p => p.1 ≠ k) ++ [(k, v)]
  else if cap ≤ c.length then c.drop (c.length + 1 - cap) ++ [(k, v)]
  else c ++ [(k, v)]

/-- Python `path.split(".")`, inner loop: split on every dot, keeping
empty fragments. -/
def splitDotsAux : List Char → List Char → List String
  | [], acc => [String.mk acc.reverse]
  | c :: cs, acc =>
    if c = '.' then String.mk acc.reverse :: splitDotsAux cs []
    else splitDotsAux cs (c :: acc)

/-- Python `path.split(".")`. -/
def splitDots (s : String) : List String := splitDotsAux s.toList []

/-- Number of dot characters in a path. -/
def dotCount (s : String) : Nat := s.toList.count '.'

mutual

/-- Embeds `get_address_by_name` together with its
`@cached(cache=ADDRESS_CACHE)` decorator: on a cache hit the cached value
is returned with no side effect; on a miss the body runs (manual/registry
overwrite first, chain resolution second) and an ok result is recorded in
the FIFO cache. -/
def get_address_by_name (env : Env) (fuel : Nat) (s : RPState)
    (name : String) : RPState × Except RPError Nat :=
  match fuel with
  | 0 => (s, .error .outOfFuel)
  | f + 1 =>
    match lookupKey s.address_cache name with
    | some v => (s, .ok v)
    | none =>
      match
        (match lookupKey s.addresses name with
         | some v => (s, Except.ok v)
         | none => uncached_get_address_by_name env f s name) with
      | (s1, .ok v) =>
        ({s1 with address_cache := fifoInsert 2048 s1.address_cache name v},
         .ok v)
      | (s1, .error e) => (s1, .error e)

/-- Embeds `uncached_get_address_by_name`: resolve the `"rocketStorage"`
contract, query it for the address stored under
`sha3("contract.address", name)` (recorded in the ghost `addrLookups`
log), fail on the zero address, record the result in the `addresses`
bidict and return it. -/
def uncached_get_address_by_name (env : Env) (fuel : Nat) (s : RPState)
    (name : String) : RPState × Except RPError Nat :=
  match fuel with
  | 0 => (s, .error .outOfFuel)
  | f + 1 =>
    match get_contract_by_name env f s "rocketStorage" with
    | (s1, .error e) => (s1, .error e)
    | (s1, .ok _storage) =>
      let address := env.storageAddress name
      let s2 : RPState := {s1 with addrLookups := name :: s1.addrLookups}
      if address = 0 then (s2, .error (.notFound name))
      else
        match bidict_put s2.addresses name address with
        | .error e => (s2, .error e)
        | .ok m => ({s2 with addresses := m}, .ok address)

/-- Embeds `get_contract_by_name`: resolve the address, then assemble.  Note the
two-argument call `self.assemble_contract(name, address)`, whose cache
key therefore has no `mainnet` component (`none`). -/
def get_contract_by_name (env : Env) (fuel : Nat) (s : RPState)
    (name : String) : RPState × Except RPError Contract :=
  match fuel with
  | 0 => (s, .error .outOfFuel)
  | f + 1 =>
    match get_address_by_name env f s name with
    | (s1, .error e) => (s1, .error e)
    | (s1, .ok address) => assemble_contract env f s1 name address none

/-- Embeds `assemble_contract` together with its
`@cached(cache=CONTRACT_CACHE)` decorator.  The cache key is the call
argument tuple `(name, address, mainnetArg)` where `mainnetArg = none`
models a call that left the `mainnet` keyword at its default.  On a miss:
`abi = None`; if the local override file exists its contents are read;
`if not abi:` (file absent, or present with falsy empty contents) the
cached/chain abi is fetched instead; finally the contract handle is built
on the requested network and cached. -/
def assemble_contract (env : Env) (fuel : Nat) (s : RPState) (name : String)
    (address : Nat) (mainnetArg : Option Bool) :
    RPState × Except RPError Contract :=
  match fuel with
  | 0 => (s, .error .outOfFuel)
  | f + 1 =>
    match lookupKey s.contract_cache (name, address, mainnetArg) with
    | some c => (s, .ok c)
    | none =>
      match
        (match env.localAbi name with
         | some contents =>
           if contents = "" then get_abi_by_name env f s name
           else (s, Except.ok (AbiSrc.localFile contents))
         | none => get_abi_by_name env f s name) with
      | (s1, .error e) => (s1, .error e)
      | (s1, .ok abi) =>
        let c : Contract := ⟨address, abi, mainnetArg.getD false⟩
        ({s1 with contract_cache :=
            fifoInsert 2048 s1.contract_cache (name, address, mainnetArg) c},
         .ok c)

/-- Embeds `get_abi_by_name` together with its `@cached(cache=ABI_CACHE)`
decorator. -/
def get_abi_by_name (env : Env) (fuel : Nat) (s : RPState)
    (name : String) : RPState × Except RPError AbiSrc :=
  match fuel with
  | 0 => (s, .error .outOfFuel)
  | f + 1 =>
    match lookupKey s.abi_cache name with
    | some a => (s, .ok a)
    | none =>
      match uncached_get_abi_by_name env f s name with
      | (s1, .ok a) =>
        ({s1 with abi_cache := fifoInsert 2048 s1.abi_cache name a}, .ok a)
      | (s1, .error e) => (s1, .error e)

/-- Embeds `uncached_get_abi_by_name`: resolve `"rocketStorage"`, query it for
the compressed string under `sha3("contract.abi", name)` (recorded in the
ghost `abiLookups` log), fail on the empty string, decode otherwise. -/
def uncached_get_abi_by_name (env : Env) (fuel : Nat) (s : RPState)
    (name : String) : RPState × Except RPError AbiSrc :=
  match fuel with
  | 0 => (s, .error .outOfFuel)
  | f + 1 =>
    match get_contract_by_name env f s "rocketStorage" with
    | (s1, .error e) => (s1, .error e)
    | (s1, .ok _storage) =>
      let compressed := env.storageAbi name
      let s2 : RPState := {s1 with abiLookups := name :: s1.abiLookups}
      if compressed = "" then (s2, .error (.notFound name))
      else (s2, .ok (decode_abi compressed))

end

/-- Embeds `get_name_by_address`: pure inverse lookup in the bidict, `None`
when the address was never associated with a name. -/
def get_name_by_address (s : RPState) (address : Nat) : Option String :=
  lookupVal s.addresses address

/-- Python truthiness of the `address` keyword of `get_function`
(`if not address:`): `None` and `0` are falsy and discarded. -/
def pyTruthyAddress : Option Nat → Option Nat
  | none => none
  | some 0 => none
  | some (n + 1) => some (n + 1)

/-- Embeds `get_function`: split the path on dots, fail unless exactly two parts
result, re-resolve the address whenever the supplied one is falsy, then
assemble (three-argument call, so the cache key carries
`some mainnet`) and bind the named function to the arguments. -/
def get_function (env : Env) (fuel : Nat) (s : RPState) (path : String)
    (args : List Nat) (address : Option Nat) (mainnet : Bool) :
    RPState × Except RPError BoundCall :=
  match fuel with
  | 0 => (s, .error .outOfFuel)
  | f + 1 =>
    match splitDots path with
    | [name, fname] =>
      match
        (match pyTruthyAddress address with
         | some a => (s, Except.ok a)
         | none => get_address_by_name env f s name) with
      | (s1, .error e) => (s1, .error e)
      | (s1, .ok a) =>
        match assemble_contract env f s1 name a (some mainnet) with
        | (s2, .error e) => (s2, .error e)
        | (s2, .ok c) => (s2, .ok ⟨c, fname, args⟩)
    | parts => (s, .error (.invalidPath parts.length))

/-- Embeds `call`: bind via `get_function` and execute read-only at the given
block. -/
def call (env : Env) (fuel : Nat) (s : RPState) (path : String)
    (args : List Nat) (block : String) (address : Option Nat)
    (mainnet : Bool) : RPState × Except RPError Nat :=
  match fuel with
  | 0 => (s, .error .outOfFuel)
  | f + 1 =>
    match get_function env f s path args address mainnet with
    | (s1, .error e) => (s1, .error e)
    | (s1, .ok bc) => (s1, .ok (env.callResult bc block))

/-- Embeds `estimate_gas_for_call`: same path parsing, then a gas estimate with
the `{"gas": 2 ** 32}` ceiling instead of an execution. -/
def estimate_gas_for_call (env : Env) (fuel : Nat) (s : RPState)
    (path : String) (args : List Nat) (block : String) :
    RPState × Except RPError Nat :=
  match fuel with
  | 0 => (s, .error .outOfFuel)
  | f + 1 =>
    match splitDots path with
    | [name, fname] =>
      match get_contract_by_name env f s name with
      | (s1, .error e) => (s1, .error e)
      | (s1, .ok c) =>
        (s1, .ok (env.estimateGasResult ⟨c, fname, args⟩ (2 ^ 32) block))
    | parts => (s, .error (.invalidPath parts.length))

/-- The `for name, address in cfg["rocketpool.manual_addresses"].items()`
loop at the end of `flush`: each pair is written into the bidict in
order; a `ValueDuplicationError` aborts the loop, keeping the pairs
already written. -/
def seedManual : List (String × Nat) → RPState → RPState × Except RPError Unit
  | [], s => (s, .ok ())
  | (n, a) :: rest, s =>
    match bidict_put s.addresses n a with
    | .ok m => seedManual rest {s with addresses := m}
    | .error e => (s, .error e)

/-- Embeds `flush`: clear the three caches, replace the bidict by a fresh one,
rebuild the multicall client (non-fatally), then seed the manual
overrides.  The ghost lookup logs record chain calls ever made and are
not cleared. -/
def flush (env : Env) (s : RPState) : RPState × Except RPError Unit :=
  seedManual env.manual_addresses
    {s with contract_cache := [], abi_cache := [], address_cache := [],
            addresses := [], multicall := env.multicallOk}

/-- The state of a freshly constructed (pre-`flush`) instance. -/
def initialState : RPState :=
  ⟨[], [], [], [], false, [], []⟩

/-- The parameter dict `{"from": ..., "to": ..., "data": ..., "gas": ...,
"gasPrice": ..., "value": ...}` built by `get_revert_reason` from the
transaction's own fields. -/
def callParamsOf (tnx : Tnx) : CallParams :=
  ⟨tnx.fromAddr, tnx.toAddr, tnx.input, tnx.gas, tnx.gasPrice, tnx.value⟩

/-- Embeds `get_revert_reason`: replay the transaction's exact call parameters
at its mined block; `ContractLogicError` yields the joined revert
arguments, `ValueError` is mapped by error code (`-32000` to
`"Out of gas"`, everything else to `"Hidden Error"`), and a successful
replay yields `None`. -/
def get_revert_reason (env : Env) (tnx : Tnx) : Option String :=
  match env.replay (callParamsOf tnx) tnx.blockNumber with
  | .success => none
  | .contractLogicError args => some (String.intercalate ", " args)
  | .valueError code =>
    if code = -32000 then some "Out of gas" else some "Hidden Error"

/-- The pubkey bytes of a log entry when it decodes as the well-known
`DepositEvent`, `none` otherwise. -/
def depositPubkey : LogEntry → Option (List Nat)
  | .deposit pk => some pk
  | .mismatched => none

/-- Embeds `events.DepositEvent().processReceipt(receipt)` under the
warning-suppressing `warnings.catch_warnings()` block: every log entry
that decodes as a `DepositEvent` is kept in order, every other entry is
skipped silently. -/
def processReceipt (receipt : List LogEntry) : List (List Nat) :=
  receipt.filterMap depositPubkey

/-- One hex digit (python `hex` alphabet, lowercase). -/
def hexDigitChar (n : Nat) : Char :=
  if n < 10 then Char.ofNat (48 + n) else Char.ofNat (87 + n)

/-- One byte as two hex digits. -/
def byteToHex (b : Nat) : List Char :=
  [hexDigitChar (b / 16 % 16), hexDigitChar (b % 16)]

/-- Python `bytes.hex()`. -/
def bytesToHex (bs : List Nat) : String :=
  String.mk (bs.map byteToHex).flatten

/-- Embeds `get_pubkey_using_transaction`: decode the receipt with the
`casperDeposit` contract's `DepositEvent` schema, return the first
matching event's pubkey as hex, or `None` (python's implicit return)
when no log matches. -/
def get_pubkey_using_transaction (env : Env) (fuel : Nat) (s : RPState)
    (receipt : List LogEntry) : RPState × Except RPError (Option String) :=
  match fuel with
  | 0 => (s, .error .outOfFuel)
  | f + 1 =>
    match get_contract_by_name env f s "casperDeposit" with
    | (s1, .error e) => (s1, .error e)
    | (s1, .ok _c) =>
      match processReceipt receipt with
      | [] => (s1, .ok none)
      | pk :: _ => (s1, .ok (some (bytesToHex pk)))

/-- The public operations a caller can perform between two flushes, used
to state registry invariants once over all of them. -/
inductive Op where
  | resolve (name : String)
  | contractByName (name : String)
  | abiByName (name : String)
  | assembleOp (name : String) (address : Nat) (mainnetArg : Option Bool)
  | nameByAddress (address : Nat)
  | functionOp (path : String) (args : List Nat) (address : Option Nat)
      (mainnet : Bool)
  | callOp (path : String) (args : List Nat) (block : String)
      (address : Option Nat) (mainnet : Bool)
  | estimateOp (path : String) (args : List Nat) (block : String)
  | pubkeyOp (receipt : List LogEntry)

/-- Run one public operation, keeping only the state it leaves behind
(exceptions keep their side effects, as in python). -/
def runOp (env : Env) (fuel : Nat) : Op → RPState → RPState
  | .resolve name, s => (get_address_by_name env fuel s name).1
  | .contractByName name, s => (get_contract_by_name env fuel s name).1
  | .abiByName name, s => (get_abi_by_name env fuel s name).1
  | .assembleOp name a m, s => (assemble_contract env fuel s name a m).1
  | .nameByAddress _, s => s
  | .functionOp p args a m, s => (get_function env fuel s p args a m).1
  | .callOp p args b a m, s => (call env fuel s p args b a m).1
  | .estimateOp p args b, s => (estimate_gas_for_call env fuel s p args b).1
  | .pubkeyOp receipt, s => (get_pubkey_using_transaction env fuel s receipt).1

/-- The registry has at most one entry per name. -/
abbrev KeysDistinct {α β : Type} (m : List (α × β)) : Prop :=
  (m.map Prod.fst).Nodup

/-- The registry has at most one entry per address. -/
abbrev ValsDistinct {α β : Type} (m : List (α × β)) : Prop :=
  (m.map Prod.snd).Nodup

/-- The bidict is a bijection: names unique and addresses unique. -/
abbrev BijReg (m : List (String × Nat)) : Prop :=
  KeysDistinct m ∧ ValsDistinct m

/-- Every address-cache entry is backed by a registry entry. -/
abbrev Coherent (s : RPState) : Prop :=
  ∀ p ∈ s.address_cache, p ∈ s.addresses

/-! ### Association-list lemmas -/

theorem lookupKey_eq_none {α β : Type} [DecidableEq α] {m : List (α × β)}
    {k : α} : lookupKey m k = none ↔ ∀ p ∈ m, p.1 ≠ k := by
  induction m with
  | nil => simp [lookupKey]
  | cons p ps ih =>
    by_cases h : p.1 = k
    · simp [lookupKey, h]
    · simp [lookupKey, h, ih]

theorem mem_of_lookupKey {α β : Type} [DecidableEq α] {m : List (α × β)}
    {k : α} {v : β} (h : lookupKey m k = some v) : (k, v) ∈ m := by
  induction m with
  | nil => simp [lookupKey] at h
  | cons p ps ih =>
    by_cases hk : p.1 = k
    · simp only [lookupKey, if_pos hk, Option.some.injEq] at h
      exact List.mem_cons.mpr (Or.inl (by cases p; simp_all))
    · simp only [lookupKey, if_neg hk] at h
      exact List.mem_cons.mpr (Or.inr (ih h))

theorem lookupKey_of_mem {α β : Type} [DecidableEq α] {m : List (α × β)}
    {k : α} {v : β} (hk : KeysDistinct m) (h : (k, v) ∈ m) :
    lookupKey m k = some v := by
  induction m with
  | nil => simp at h
  | cons p ps ih =>
    have hk' := hk
    simp only [KeysDistinct, List.map_cons, List.nodup_cons] at hk'
    rcases List.mem_cons.mp h with h1 | h1
    · subst h1; simp [lookupKey]
    · have hne : p.1 ≠ k := by
        intro hkk
        exact hk'.1 (hkk ▸ List.mem_map.mpr ⟨(k, v), h1, rfl⟩)
      simpa [lookupKey, hne] using ih hk'.2 h1

theorem lookupVal_of_mem {α β : Type} [DecidableEq β] {m : List (α × β)}
    {k : α} {v : β} (hv : ValsDistinct m) (h : (k, v) ∈ m) :
    lookupVal m v = some k := by
  induction m with
  | nil => simp at h
  | cons p ps ih =>
    have hv' := hv
    simp only [ValsDistinct, List.map_cons, List.nodup_cons] at hv'
    rcases List.mem_cons.mp h with h1 | h1
    · subst h1; simp [lookupVal]
    · have hne : p.2 ≠ v := by
        intro hvv
        exact hv'.1 (hvv ▸ List.mem_map.mpr ⟨(k, v), h1, rfl⟩)
      simpa [lookupVal, hne] using ih hv'.2 h1

theorem lookupKey_append {α β : Type} [DecidableEq α] {l1 l2 : List (α × β)}
    {k : α} (h : ∀ p ∈ l1, p.1 ≠ k) :
    lookupKey (l1 ++ l2) k = lookupKey l2 k := by
  induction l1 with
  | nil => rfl
  | cons p ps ih =>
    simp only [List.cons_append, lookupKey,
      if_neg (h p (List.mem_cons_self p ps))]
    exact ih fun q hq => h q (List.mem_cons_of_mem p hq)

theorem lookupVal_append {α β : Type} [DecidableEq β] {l1 l2 : List (α × β)}
    {v : β} (h : ∀ p ∈ l1, p.2 ≠ v) :
    lookupVal (l1 ++ l2) v = lookupVal l2 v := by
  induction l1 with
  | nil => rfl
  | cons p ps ih =>
    simp only [List.cons_append, lookupVal,
      if_neg (h p (List.mem_cons_self p ps))]
    exact ih fun q hq => h q (List.mem_cons_of_mem p hq)

theorem lookupKey_unique {α β : Type} [DecidableEq α] {m : List (α × β)}
    {k : α} {v w : β} (hk : KeysDistinct m) (h1 : (k, v) ∈ m)
    (h2 : (k, w) ∈ m) : v = w := by
  have e1 := lookupKey_of_mem hk h1
  have e2 := lookupKey_of_mem hk h2
  rw [e1] at e2
  exact Option.some.inj e2

/-! ### FIFO-cache lemmas -/

theorem fifoInsert_lookup_self {α β : Type} [DecidableEq α] (cap : Nat)
    (c : List (α × β)) (k : α) (v : β) :
    lookupKey (fifoInsert cap c k v) k = some v := by
  unfold fifoInsert
  split
  · rw [lookupKey_append fun p hp => by
      simpa using (List.mem_filter.mp hp).2]
    simp [lookupKey]
  · next hnone =>
    have hn : lookupKey c k = none := by
      cases h : lookupKey c k with
      | none => rfl
      | some w => rw [h] at hnone; simp at hnone
    have hall := lookupKey_eq_none.mp hn
    split
    · rw [lookupKey_append fun p hp => hall p (List.mem_of_mem_drop hp)]
      simp [lookupKey]
    · rw [lookupKey_append hall]
      simp [lookupKey]

theorem fifoInsert_mem {α β : Type} [DecidableEq α] {cap : Nat}
    {c : List (α × β)} {k : α} {v : β} {p : α × β}
    (h : p ∈ fifoInsert cap c k v) : p ∈ c ∨ p = (k, v) := by
  unfold fifoInsert at h
  split at h
  · rcases List.mem_append.mp h with h1 | h1
    · exact Or.inl (List.mem_filter.mp h1).1
    · exact Or.inr (by simpa using h1)
  · split at h
    · rcases List.mem_append.mp h with h1 | h1
      · exact Or.inl (List.mem_of_mem_drop h1)
      · exact Or.inr (by simpa using h1)
    · rcases List.mem_append.mp h with h1 | h1
      · exact Or.inl h1
      · exact Or.inr (by simpa using h1)

/-! ### bidict lemmas -/

theorem bidict_put_ok_mem {α β : Type} [DecidableEq α] [DecidableEq β]
    {m m' : List (α × β)} {k : α} {v : β}
    (h : bidict_put m k v = .ok m') : (k, v) ∈ m' := by
  unfold bidict_put at h
  split at h
  · next hmem => cases h; exact hmem
  · split at h
    · simp at h
    · cases h; simp

theorem bidict_put_ok_keep {α β : Type} [DecidableEq α] [DecidableEq β]
    {m m' : List (α × β)} {k : α} {v : β} {p : α × β}
    (h : bidict_put m k v = .ok m') (hp : p ∈ m) (hne : p.1 ≠ k) :
    p ∈ m' := by
  unfold bidict_put at h
  split at h
  · cases h; exact hp
  · split at h
    · simp at h
    · cases h
      exact List.mem_append.mpr (Or.inl (List.mem_filter.mpr ⟨hp, by simpa using hne⟩))

theorem bidict_put_fresh {α β : Type} [DecidableEq α] [DecidableEq β]
    {m : List (α × β)} {k : α} {v : β}
    (hk : ∀ p ∈ m, p.1 ≠ k) (hv : ∀ p ∈ m, p.2 ≠ v) :
    bidict_put m k v = .ok (m ++ [(k, v)]) := by
  unfold bidict_put
  rw [if_neg fun hmem => hk (k, v) hmem rfl,
      if_neg fun ⟨p, hp, h2, _⟩ => hv p hp h2]
  congr 1
  congr 1
  exact List.filter_eq_self.mpr fun p hp => by simpa using hk p hp

theorem bidict_put_bij {m : List (String × Nat)} {k : String} {v : Nat}
    {m' : List (String × Nat)} (hbij : BijReg m)
    (h : bidict_put m k v = .ok m') :
    BijReg m' ∧ lookupKey m' k = some v ∧ lookupVal m' v = some k := by
  unfold bidict_put at h
  split at h
  · next hmem =>
    cases h
    exact ⟨hbij, lookupKey_of_mem hbij.1 hmem, lookupVal_of_mem hbij.2 hmem⟩
  · next hmem =>
    split at h
    · simp at h
    · next hdup =>
      cases h
      have hvfresh : ∀ p ∈ m, p.2 ≠ v := by
        intro p hp hpv
        by_cases hpk : p.1 = k
        · exact hmem (by cases p; simp_all)
        · exact hdup ⟨p, hp, hpv, hpk⟩
      have hfsub : List.Sublist (m.filter fun p => p.1 ≠ k) m :=
        List.filter_sublist m
      have hfilter_ne : ∀ p ∈ m.filter fun (p : String × Nat) => p.1 ≠ k, p.1 ≠ k :=
        fun p hp => by simpa using (List.mem_filter.mp hp).2
      have hfilter_nv : ∀ p ∈ m.filter fun (p : String × Nat) => p.1 ≠ k, p.2 ≠ v :=
        fun p hp => hvfresh p (List.mem_filter.mp hp).1
      refine ⟨⟨?_, ?_⟩, ?_, ?_⟩
      · simp only [KeysDistinct, List.map_append, List.map_cons, List.map_nil]
        rw [List.nodup_append]
        refine ⟨(hfsub.map Prod.fst).nodup hbij.1, List.nodup_singleton k, ?_⟩
        intro x hx hx1
        simp only [List.mem_singleton] at hx1
        obtain ⟨p, hp, rfl⟩ := List.mem_map.mp hx
        exact hfilter_ne p hp hx1
      · simp only [ValsDistinct, List.map_append, List.map_cons, List.map_nil]
        rw [List.nodup_append]
        refine ⟨(hfsub.map Prod.snd).nodup hbij.2, List.nodup_singleton v, ?_⟩
        intro x hx hx1
        simp only [List.mem_singleton] at hx1
        obtain ⟨p, hp, rfl⟩ := List.mem_map.mp hx
        exact hfilter_nv p hp hx1
      · rw [lookupKey_append hfilter_ne]; simp [lookupKey]
      · rw [lookupVal_append hfilter_nv]; simp [lookupVal]

/-! ### Path-splitting lemmas -/

theorem splitDotsAux_length (l : List Char) :
    ∀ acc, (splitDotsAux l acc).length = l.count '.' + 1 := by
  induction l with
  | nil => intro acc; simp [splitDotsAux]
  | cons c cs ih =>
    intro acc
    by_cases h : c = '.'
    · simp [splitDotsAux, h, ih, List.count_cons]
    · simp [splitDotsAux, h, ih, List.count_cons]

theorem splitDots_length (s : String) :
    (splitDots s).length = dotCount s + 1 := by
  simp [splitDots, dotCount, splitDotsAux_length]

/-! ### The rocketStorage bootstrap

When `"rocketStorage"` is in neither the address cache nor the registry,
`uncached_get_address_by_name` recurses into itself through
`get_contract_by_name` without making progress; in python this is an
infinite recursion ending in `RecursionError`, here the fuel runs out and
the state is returned unchanged. -/

theorem rocketStorage_stuck (env : Env) : ∀ fuel : Nat, ∀ s : RPState,
    lookupKey s.address_cache "rocketStorage" = none →
    lookupKey s.addresses "rocketStorage" = none →
    uncached_get_address_by_name env fuel s "rocketStorage" =
      (s, .error .outOfFuel) ∧
    get_address_by_name env fuel s "rocketStorage" =
      (s, .error .outOfFuel) := by
  intro fuel
  induction fuel using Nat.strong_induction_on with
  | _ fuel ih =>
    intro s hc hr
    have hU : uncached_get_address_by_name env fuel s "rocketStorage" =
        (s, .error .outOfFuel) := by
      cases fuel with
      | zero => rfl
      | succ f =>
        cases f with
        | zero => rfl
        | succ g =>
          have hA : get_address_by_name env g s "rocketStorage" =
              (s, .error .outOfFuel) := (ih g (by omega) s hc hr).2
          simp only [uncached_get_address_by_name, get_contract_by_name, hA]
    refine ⟨hU, ?_⟩
    cases fuel with
    | zero => rfl
    | succ f =>
      have hU' : uncached_get_address_by_name env f s "rocketStorage" =
          (s, .error .outOfFuel) := (ih f (by omega) s hc hr).1
      simp only [get_address_by_name, hc, hr, hU']

/-! ### Cache behaviour of `get_address_by_name` -/

/-- After a successful resolution, the resolved value sits in the FIFO
address cache. -/
theorem get_address_ok_cached (env : Env) {fuel : Nat} {s s1 : RPState}
    {name : String} {v : Nat}
    (h : get_address_by_name env fuel s name = (s1, .ok v)) :
    lookupKey s1.address_cache name = some v := by
  cases fuel with
  | zero => simp [get_address_by_name] at h
  | succ f =>
    cases hc : lookupKey s.address_cache name with
    | some w =>
      simp only [get_address_by_name, hc, Prod.mk.injEq, Except.ok.injEq] at h
      obtain ⟨rfl, rfl⟩ := h
      exact hc
    | none =>
      cases hr : lookupKey s.addresses name with
      | some w =>
        simp only [get_address_by_name, hc, hr, Prod.mk.injEq,
          Except.ok.injEq] at h
        obtain ⟨rfl, rfl⟩ := h
        simp [fifoInsert_lookup_self]
      | none =>
        rcases hu : uncached_get_address_by_name env f s name with ⟨s2, r⟩
        cases r with
        | ok w =>
          simp only [get_address_by_name, hc, hr, hu, Prod.mk.injEq,
            Except.ok.injEq] at h
          obtain ⟨rfl, rfl⟩ := h
          simp [fifoInsert_lookup_self]
        | error e =>
          simp only [get_address_by_name, hc, hr, hu] at h
          simp at h

/-- A cached name is answered from the cache, with no state change. -/
theorem get_address_cached_hit (env : Env) {s1 : RPState} {name : String}
    {v : Nat} (g : Nat) (h : lookupKey s1.address_cache name = some v) :
    get_address_by_name env (g + 1) s1 name = (s1, .ok v) := by
  simp only [get_address_by_name, h]

/-- A successful `get_address_by_name` of `"rocketStorage"` never writes
the registry: it is answered from the cache or from the registry itself
(the chain path would recurse forever). -/
theorem get_address_rs_ok_addresses (env : Env) {fuel : Nat}
    {s s1 : RPState} {v : Nat}
    (h : get_address_by_name env fuel s "rocketStorage" = (s1, .ok v)) :
    s1.addresses = s.addresses := by
  cases fuel with
  | zero => simp [get_address_by_name] at h
  | succ f =>
    cases hc : lookupKey s.address_cache "rocketStorage" with
    | some w =>
      simp only [get_address_by_name, hc, Prod.mk.injEq, Except.ok.injEq] at h
      obtain ⟨rfl, rfl⟩ := h
      rfl
    | none =>
      cases hr : lookupKey s.addresses "rocketStorage" with
      | some w =>
        simp only [get_address_by_name, hc, hr, Prod.mk.injEq,
          Except.ok.injEq] at h
        obtain ⟨rfl, rfl⟩ := h
        rfl
      | none =>
        simp only [get_address_by_name, hc, hr,
          (rocketStorage_stuck env f s hc hr).1] at h
        simp at h

/-! ### Registry monotonicity

Between two flushes no operation ever removes a registry entry: the only
write is `self.addresses[name] = address` in
`uncached_get_address_by_name`, which is reached only when `name` is not
a registry key, and which fails atomically on an address conflict. -/

theorem registry_mono (env : Env) : ∀ fuel : Nat,
    (∀ s name p, p ∈ s.addresses →
      p ∈ (get_address_by_name env fuel s name).1.addresses) ∧
    (∀ s name p, p ∈ s.addresses → p.1 ≠ name →
      p ∈ (uncached_get_address_by_name env fuel s name).1.addresses) ∧
    (∀ s name p, p ∈ s.addresses →
      p ∈ (get_contract_by_name env fuel s name).1.addresses) ∧
    (∀ s name address mArg p, p ∈ s.addresses →
      p ∈ (assemble_contract env fuel s name address mArg).1.addresses) ∧
    (∀ s name p, p ∈ s.addresses →
      p ∈ (get_abi_by_name env fuel s name).1.addresses) ∧
    (∀ s name p, p ∈ s.addresses →
      p ∈ (uncached_get_abi_by_name env fuel s name).1.addresses) := by
  intro fuel
  induction fuel with
  | zero =>
    exact ⟨fun s name p hp => hp, fun s name p hp _ => hp,
      fun s name p hp => hp, fun s name address mArg p hp => hp,
      fun s name p hp => hp, fun s name p hp => hp⟩
  | succ f ih =>
    obtain ⟨ihA, ihU, ihC, ihAs, ihB, ihUB⟩ := ih
    have hA : ∀ s name p, p ∈ s.addresses →
        p ∈ (get_address_by_name env (f + 1) s name).1.addresses := by
      intro s name p hp
      cases hc : lookupKey s.address_cache name with
      | some w => simpa [get_address_by_name, hc] using hp
      | none =>
        cases hr : lookupKey s.addresses name with
        | some w => simpa [get_address_by_name, hc, hr] using hp
        | none =>
          have hne : p.1 ≠ name := lookupKey_eq_none.mp hr p hp
          rcases hu : uncached_get_address_by_name env f s name with ⟨s2, r⟩
          have h2 : p ∈ s2.addresses := by
            have := ihU s name p hp hne
            rw [hu] at this; exact this
          cases r with
          | ok w => simpa [get_address_by_name, hc, hr, hu] using h2
          | error e => simpa [get_address_by_name, hc, hr, hu] using h2
    have hU : ∀ s name p, p ∈ s.addresses → p.1 ≠ name →
        p ∈ (uncached_get_address_by_name env (f + 1) s name).1.addresses := by
      intro s name p hp hne
      rcases hcon : get_contract_by_name env f s "rocketStorage" with ⟨s1, r⟩
      have h1 : p ∈ s1.addresses := by
        have := ihC s "rocketStorage" p hp; rw [hcon] at this; exact this
      cases r with
      | error e => simpa [uncached_get_address_by_name, hcon] using h1
      | ok c =>
        by_cases hz : env.storageAddress name = 0
        · simpa [uncached_get_address_by_name, hcon, hz] using h1
        · rcases hput : bidict_put s1.addresses name (env.storageAddress name)
            with e | m
          · simpa [uncached_get_address_by_name, hcon, hz, hput] using h1
          · have h2 : p ∈ m := bidict_put_ok_keep hput h1 hne
            simpa [uncached_get_address_by_name, hcon, hz, hput] using h2
    have hC : ∀ s name p, p ∈ s.addresses →
        p ∈ (get_contract_by_name env (f + 1) s name).1.addresses := by
      intro s name p hp
      rcases ha : get_address_by_name env f s name with ⟨s1, r⟩
      have h1 : p ∈ s1.addresses := by
        have := ihA s name p hp; rw [ha] at this; exact this
      cases r with
      | error e => simpa [get_contract_by_name, ha] using h1
      | ok v =>
        have h2 := ihAs s1 name v none p h1
        simpa [get_contract_by_name, ha] using h2
    have hAs : ∀ s name address mArg p, p ∈ s.addresses →
        p ∈ (assemble_contract env (f + 1) s name address mArg).1.addresses := by
      intro s name address mArg p hp
      cases hcc : lookupKey s.contract_cache (name, address, mArg) with
      | some c => simpa [assemble_contract, hcc] using hp
      | none =>
        cases hl : env.localAbi name with
        | some contents =>
          by_cases he : contents = ""
          · rcases hb : get_abi_by_name env f s name with ⟨s1, r⟩
            have h1 : p ∈ s1.addresses := by
              have := ihB s name p hp; rw [hb] at this; exact this
            cases r with
            | error e => simpa [assemble_contract, hcc, hl, he, hb] using h1
            | ok a => simpa [assemble_contract, hcc, hl, he, hb] using h1
          · simpa [assemble_contract, hcc, hl, he] using hp
        | none =>
          rcases hb : get_abi_by_name env f s name with ⟨s1, r⟩
          have h1 : p ∈ s1.addresses := by
            have := ihB s name p hp; rw [hb] at this; exact this
          cases r with
          | error e => simpa [assemble_contract, hcc, hl, hb] using h1
          | ok a => simpa [assemble_contract, hcc, hl, hb] using h1
    have hB : ∀ s name p, p ∈ s.addresses →
        p ∈ (get_abi_by_name env (f + 1) s name).1.addresses := by
      intro s name p hp
      cases hbc : lookupKey s.abi_cache name with
      | some a => simpa [get_abi_by_name, hbc] using hp
      | none =>
        rcases hu : uncached_get_abi_by_name env f s name with ⟨s1, r⟩
        have h1 : p ∈ s1.addresses := by
          have := ihUB s name p hp; rw [hu] at this; exact this
        cases r with
        | ok a => simpa [get_abi_by_name, hbc, hu] using h1
        | error e => simpa [get_abi_by_name, hbc, hu] using h1
    have hUB : ∀ s name p, p ∈ s.addresses →
        p ∈ (uncached_get_abi_by_name env (f + 1) s name).1.addresses := by
      intro s name p hp
      rcases hcon : get_contract_by_name env f s "rocketStorage" with ⟨s1, r⟩
      have h1 : p ∈ s1.addresses := by
        have := ihC s "rocketStorage" p hp; rw [hcon] at this; exact this
      cases r with
      | error e => simpa [uncached_get_abi_by_name, hcon] using h1
      | ok c =>
        by_cases he : env.storageAbi name = ""
        · simpa [uncached_get_abi_by_name, hcon, he] using h1
        · simpa [uncached_get_abi_by_name, hcon, he] using h1
    exact ⟨hA, hU, hC, hAs, hB, hUB⟩

theorem registry_mono_function (env : Env) (fuel : Nat) (s : RPState)
    (path : String) (args : List Nat) (address : Option Nat)
    (mainnet : Bool) {p : String × Nat} (hp : p ∈ s.addresses) :
    p ∈ (get_function env fuel s path args address mainnet).1.addresses := by
  cases fuel with
  | zero => exact hp
  | succ f =>
    rcases hs : splitDots path with _ | ⟨n, _ | ⟨fn, _ | ⟨q, rest⟩⟩⟩
    · simpa [get_function, hs] using hp
    · simpa [get_function, hs] using hp
    · have step : ∀ s1 : RPState, p ∈ s1.addresses → ∀ a : Nat,
          p ∈ (assemble_contract env f s1 n a (some mainnet)).1.addresses :=
        fun s1 h1 a => (registry_mono env f).2.2.2.1 s1 n a (some mainnet) p h1
      cases hta : pyTruthyAddress address with
      | some a =>
        rcases hasm : assemble_contract env f s n a (some mainnet) with ⟨s2, r2⟩
        have h2 : p ∈ s2.addresses := by
          have := step s hp a; rw [hasm] at this; exact this
        cases r2 with
        | ok c => simpa [get_function, hs, hta, hasm] using h2
        | error e => simpa [get_function, hs, hta, hasm] using h2
      | none =>
        rcases ha : get_address_by_name env f s n with ⟨s1, r⟩
        have h1 : p ∈ s1.addresses := by
          have := (registry_mono env f).1 s n p hp; rw [ha] at this; exact this
        cases r with
        | error e => simpa [get_function, hs, hta, ha] using h1
        | ok a =>
          rcases hasm : assemble_contract env f s1 n a (some mainnet)
            with ⟨s2, r2⟩
          have h2 : p ∈ s2.addresses := by
            have := step s1 h1 a; rw [hasm] at this; exact this
          cases r2 with
          | ok c => simpa [get_function, hs, hta, ha, hasm] using h2
          | error e => simpa [get_function, hs, hta, ha, hasm] using h2
    · simpa [get_function, hs] using hp

theorem registry_mono_call (env : Env) (fuel : Nat) (s : RPState)
    (path : String) (args : List Nat) (block : String)
    (address : Option Nat) (mainnet : Bool) {p : String × Nat}
    (hp : p ∈ s.addresses) :
    p ∈ (call env fuel s path args block address mainnet).1.addresses := by
  cases fuel with
  | zero => exact hp
  | succ f =>
    rcases hf : get_function env f s path args address mainnet with ⟨s1, r⟩
    have h1 : p ∈ s1.addresses := by
      have := registry_mono_function env f s path args address mainnet hp
      rw [hf] at this; exact this
    cases r with
    | ok bc => simpa [call, hf] using h1
    | error e => simpa [call, hf] using h1

theorem registry_mono_estimate (env : Env) (fuel : Nat) (s : RPState)
    (path : String) (args : List Nat) (block : String) {p : String × Nat}
    (hp : p ∈ s.addresses) :
    p ∈ (estimate_gas_for_call env fuel s path args block).1.addresses := by
  cases fuel with
  | zero => exact hp
  | succ f =>
    rcases hs : splitDots path with _ | ⟨n, _ | ⟨fn, _ | ⟨q, rest⟩⟩⟩
    · simpa [estimate_gas_for_call, hs] using hp
    · simpa [estimate_gas_for_call, hs] using hp
    · rcases hcon : get_contract_by_name env f s n with ⟨s1, r⟩
      have h1 : p ∈ s1.addresses := by
        have := (registry_mono env f).2.2.1 s n p hp
        rw [hcon] at this; exact this
      cases r with
      | ok c => simpa [estimate_gas_for_call, hs, hcon] using h1
      | error e => simpa [estimate_gas_for_call, hs, hcon] using h1
    · simpa [estimate_gas_for_call, hs] using hp

theorem registry_mono_pubkey (env : Env) (fuel : Nat) (s : RPState)
    (receipt : List LogEntry) {p : String × Nat} (hp : p ∈ s.addresses) :
    p ∈ (get_pubkey_using_transaction env fuel s receipt).1.addresses := by
  cases fuel with
  | zero => exact hp
  | succ f =>
    rcases hcon : get_contract_by_name env f s "casperDeposit" with ⟨s1, r⟩
    have h1 : p ∈ s1.addresses := by
      have := (registry_mono env f).2.2.1 s "casperDeposit" p hp
      rw [hcon] at this; exact this
    cases r with
    | error e => simpa [get_pubkey_using_transaction, hcon] using h1
    | ok c =>
      cases hpr : processReceipt receipt with
      | nil => simpa [get_pubkey_using_transaction, hcon, hpr] using h1
      | cons pk rest =>
        simpa [get_pubkey_using_transaction, hcon, hpr] using h1

/-- Registry entries survive every public operation. -/
theorem runOp_registry_mono (env : Env) (fuel : Nat) (op : Op) (s : RPState)
    {p : String × Nat} (hp : p ∈ s.addresses) :
    p ∈ (runOp env fuel op s).addresses := by
  cases op with
  | resolve name => exact (registry_mono env fuel).1 s name p hp
  | contractByName name => exact (registry_mono env fuel).2.2.1 s name p hp
  | abiByName name => exact (registry_mono env fuel).2.2.2.2.1 s name p hp
  | assembleOp name a m =>
    exact (registry_mono env fuel).2.2.2.1 s name a m p hp
  | nameByAddress a => exact hp
  | functionOp path args a m =>
    exact registry_mono_function env fuel s path args a m hp
  | callOp path args b a m =>
    exact registry_mono_call env fuel s path args b a m hp
  | estimateOp path args b =>
    exact registry_mono_estimate env fuel s path args b hp
  | pubkeyOp receipt => exact registry_mono_pubkey env fuel s receipt hp

/-! ### Error classification -/

theorem bidict_put_error {α β : Type} [DecidableEq α] [DecidableEq β]
    {m : List (α × β)} {k : α} {v : β} {e : RPError}
    (h : bidict_put m k v = .error e) : e = .valueDuplication := by
  unfold bidict_put at h
  split at h
  · simp at h
  · split at h
    · exact (Except.error.inj h).symm
    · simp at h

/-- None of the resolution functions can raise the invalid-path error:
that error is raised only by the path parsing in `get_function`,
`estimate_gas_for_call` and (through the former) `call`. -/
theorem no_invalid_path (env : Env) : ∀ fuel : Nat,
    (∀ s name k, (get_address_by_name env fuel s name).2 ≠
      .error (.invalidPath k)) ∧
    (∀ s name k, (uncached_get_address_by_name env fuel s name).2 ≠
      .error (.invalidPath k)) ∧
    (∀ s name k, (get_contract_by_name env fuel s name).2 ≠
      .error (.invalidPath k)) ∧
    (∀ s name address mArg k, (assemble_contract env fuel s name address mArg).2 ≠
      .error (.invalidPath k)) ∧
    (∀ s name k, (get_abi_by_name env fuel s name).2 ≠
      .error (.invalidPath k)) ∧
    (∀ s name k, (uncached_get_abi_by_name env fuel s name).2 ≠
      .error (.invalidPath k)) := by
  intro fuel
  induction fuel with
  | zero =>
    refine ⟨fun s name k => ?_, fun s name k => ?_, fun s name k => ?_,
      fun s name a m k => ?_, fun s name k => ?_, fun s name k => ?_⟩ <;>
      simp [get_address_by_name, uncached_get_address_by_name,
        get_contract_by_name, assemble_contract, get_abi_by_name,
        uncached_get_abi_by_name]
  | succ f ih =>
    obtain ⟨ihA, ihU, ihC, ihAs, ihB, ihUB⟩ := ih
    have hA : ∀ s name k, (get_address_by_name env (f + 1) s name).2 ≠
        .error (.invalidPath k) := by
      intro s name k
      cases hc : lookupKey s.address_cache name with
      | some w => simp [get_address_by_name, hc]
      | none =>
        cases hr : lookupKey s.addresses name with
        | some w => simp [get_address_by_name, hc, hr]
        | none =>
          rcases hu : uncached_get_address_by_name env f s name with ⟨s2, r⟩
          have hne := ihU s name k
          rw [hu] at hne
          cases r with
          | ok w => simp [get_address_by_name, hc, hr, hu]
          | error e => simpa [get_address_by_name, hc, hr, hu] using hne
    have hU : ∀ s name k, (uncached_get_address_by_name env (f + 1) s name).2 ≠
        .error (.invalidPath k) := by
      intro s name k
      rcases hcon : get_contract_by_name env f s "rocketStorage" with ⟨s1, r⟩
      have hne := ihC s "rocketStorage" k
      rw [hcon] at hne
      cases r with
      | error e => simpa [uncached_get_address_by_name, hcon] using hne
      | ok c =>
        by_cases hz : env.storageAddress name = 0
        · simp [uncached_get_address_by_name, hcon, hz]
        · rcases hput : bidict_put s1.addresses name (env.storageAddress name)
            with e | m
          · have he : e = .valueDuplication := bidict_put_error hput
            subst he
            simp [uncached_get_address_by_name, hcon, hz, hput]
          · simp [uncached_get_address_by_name, hcon, hz, hput]
    have hC : ∀ s name k, (get_contract_by_name env (f + 1) s name).2 ≠
        .error (.invalidPath k) := by
      intro s name k
      rcases ha : get_address_by_name env f s name with ⟨s1, r⟩
      have hne := ihA s name k
      rw [ha] at hne
      cases r with
      | error e => simpa [get_contract_by_name, ha] using hne
      | ok v =>
        have hne2 := ihAs s1 name v none k
        rcases hasm : assemble_contract env f s1 name v none with ⟨s2, r2⟩
        rw [hasm] at hne2
        cases r2 with
        | ok c => simp [get_contract_by_name, ha, hasm]
        | error e => simpa [get_contract_by_name, ha, hasm] using hne2
    have hAs : ∀ s name address mArg k,
        (assemble_contract env (f + 1) s name address mArg).2 ≠
        .error (.invalidPath k) := by
      intro s name address mArg k
      cases hcc : lookupKey s.contract_cache (name, address, mArg) with
      | some c => simp [assemble_contract, hcc]
      | none =>
        cases hl : env.localAbi name with
        | some contents =>
          by_cases he : contents = ""
          · rcases hb : get_abi_by_name env f s name with ⟨s1, r⟩
            have hne := ihB s name k
            rw [hb] at hne
            cases r with
            | error e => simpa [assemble_contract, hcc, hl, he, hb] using hne
            | ok a => simp [assemble_contract, hcc, hl, he, hb]
          · simp [assemble_contract, hcc, hl, he]
        | none =>
          rcases hb : get_abi_by_name env f s name with ⟨s1, r⟩
          have hne := ihB s name k
          rw [hb] at hne
          cases r with
          | error e => simpa [assemble_contract, hcc, hl, hb] using hne
          | ok a => simp [assemble_contract, hcc, hl, hb]
    have hB : ∀ s name k, (get_abi_by_name env (f + 1) s name).2 ≠
        .error (.invalidPath k) := by
      intro s name k
      cases hbc : lookupKey s.abi_cache name with
      | some a => simp [get_abi_by_name, hbc]
      | none =>
        rcases hu : uncached_get_abi_by_name env f s name with ⟨s1, r⟩
        have hne := ihUB s name k
        rw [hu] at hne
        cases r with
        | ok a => simp [get_abi_by_name, hbc, hu]
        | error e => simpa [get_abi_by_name, hbc, hu] using hne
    have hUB : ∀ s name k, (uncached_get_abi_by_name env (f + 1) s name).2 ≠
        .error (.invalidPath k) := by
      intro s name k
      rcases hcon : get_contract_by_name env f s "rocketStorage" with ⟨s1, r⟩
      have hne := ihC s "rocketStorage" k
      rw [hcon] at hne
      cases r with
      | error e => simpa [uncached_get_abi_by_name, hcon] using hne
      | ok c =>
        by_cases he : env.storageAbi name = ""
        · simp [uncached_get_abi_by_name, hcon, he]
        · simp [uncached_get_abi_by_name, hcon, he]
    exact ⟨hA, hU, hC, hAs, hB, hUB⟩

/-! ### Ghost-log accounting

Every operation extends the address-lookup log only with entries for its
own name or for the bootstrap name `"rocketStorage"`. -/

def LogExtends (n : String) (old new : List String) : Prop :=
  ∃ l, new = l ++ old ∧ ∀ x ∈ l, x = n ∨ x = "rocketStorage"

theorem logExtends_refl (n : String) (old : List String) :
    LogExtends n old old :=
  ⟨[], rfl, by simp⟩

theorem logExtends_trans {n : String} {a b c : List String}
    (h1 : LogExtends n a b) (h2 : LogExtends n b c) : LogExtends n a c := by
  obtain ⟨l1, rfl, hl1⟩ := h1
  obtain ⟨l2, rfl, hl2⟩ := h2
  exact ⟨l2 ++ l1, (List.append_assoc l2 l1 a).symm,
    fun x hx => (List.mem_append.mp hx).elim (hl2 x) (hl1 x)⟩

theorem logExtends_cons_self {n : String} {old new : List String}
    (h : LogExtends n old new) : LogExtends n old (n :: new) := by
  obtain ⟨l, rfl, hl⟩ := h
  refine ⟨n :: l, rfl, fun x hx => ?_⟩
  rcases List.mem_cons.mp hx with rfl | hx
  · exact Or.inl rfl
  · exact hl x hx

theorem logExtends_of_rs {n : String} {old new : List String}
    (h : LogExtends "rocketStorage" old new) : LogExtends n old new := by
  obtain ⟨l, rfl, hl⟩ := h
  exact ⟨l, rfl, fun x hx => Or.inr ((hl x hx).elim id id)⟩

theorem logExtends_rs_count {name : String} {old new : List String}
    (h : LogExtends "rocketStorage" old new) (hne : name ≠ "rocketStorage") :
    new.count name = old.count name := by
  obtain ⟨l, rfl, hl⟩ := h
  rw [List.count_append]
  have hz : l.count name = 0 :=
    List.count_eq_zero.mpr fun hmem => hne ((hl name hmem).elim id id)
  omega

theorem addr_log (env : Env) : ∀ fuel : Nat,
    (∀ s name, LogExtends name s.addrLookups
      (get_address_by_name env fuel s name).1.addrLookups) ∧
    (∀ s name, LogExtends name s.addrLookups
      (uncached_get_address_by_name env fuel s name).1.addrLookups) ∧
    (∀ s name, LogExtends name s.addrLookups
      (get_contract_by_name env fuel s name).1.addrLookups) ∧
    (∀ s name address mArg, LogExtends name s.addrLookups
      (assemble_contract env fuel s name address mArg).1.addrLookups) ∧
    (∀ s name, LogExtends name s.addrLookups
      (get_abi_by_name env fuel s name).1.addrLookups) ∧
    (∀ s name, LogExtends name s.addrLookups
      (uncached_get_abi_by_name env fuel s name).1.addrLookups) := by
  intro fuel
  induction fuel with
  | zero =>
    exact ⟨fun s name => logExtends_refl name s.addrLookups,
      fun s name => logExtends_refl name s.addrLookups,
      fun s name => logExtends_refl name s.addrLookups,
      fun s name a m => logExtends_refl name s.addrLookups,
      fun s name => logExtends_refl name s.addrLookups,
      fun s name => logExtends_refl name s.addrLookups⟩
  | succ f ih =>
    obtain ⟨ihA, ihU, ihC, ihAs, ihB, ihUB⟩ := ih
    have hA : ∀ s name, LogExtends name s.addrLookups
        (get_address_by_name env (f + 1) s name).1.addrLookups := by
      intro s name
      cases hc : lookupKey s.address_cache name with
      | some w =>
        simpa [get_address_by_name, hc] using logExtends_refl name s.addrLookups
      | none =>
        cases hr : lookupKey s.addresses name with
        | some w =>
          simpa [get_address_by_name, hc, hr] using
            logExtends_refl name s.addrLookups
        | none =>
          rcases hu : uncached_get_address_by_name env f s name with ⟨s2, r⟩
          have h2 : LogExtends name s.addrLookups s2.addrLookups := by
            have := ihU s name; rw [hu] at this; exact this
          cases r with
          | ok w => simpa [get_address_by_name, hc, hr, hu] using h2
          | error e => simpa [get_address_by_name, hc, hr, hu] using h2
    have hU : ∀ s name, LogExtends name s.addrLookups
        (uncached_get_address_by_name env (f + 1) s name).1.addrLookups := by
      intro s name
      rcases hcon : get_contract_by_name env f s "rocketStorage" with ⟨s1, r⟩
      have h1 : LogExtends name s.addrLookups s1.addrLookups := by
        have := logExtends_of_rs (n := name) (ihC s "rocketStorage")
        rw [hcon] at this; exact this
      cases r with
      | error e => simpa [uncached_get_address_by_name, hcon] using h1
      | ok c =>
        have h2 : LogExtends name s.addrLookups (name :: s1.addrLookups) :=
          logExtends_cons_self h1
        by_cases hz : env.storageAddress name = 0
        · simpa [uncached_get_address_by_name, hcon, hz] using h2
        · rcases hput : bidict_put s1.addresses name (env.storageAddress name)
            with e | m
          · simpa [uncached_get_address_by_name, hcon, hz, hput] using h2
          · simpa [uncached_get_address_by_name, hcon, hz, hput] using h2
    have hC : ∀ s name, LogExtends name s.addrLookups
        (get_contract_by_name env (f + 1) s name).1.addrLookups := by
      intro s name
      rcases ha : get_address_by_name env f s name with ⟨s1, r⟩
      have h1 : LogExtends name s.addrLookups s1.addrLookups := by
        have := ihA s name; rw [ha] at this; exact this
      cases r with
      | error e => simpa [get_contract_by_name, ha] using h1
      | ok v =>
        rcases hasm : assemble_contract env f s1 name v none with ⟨s2, r2⟩
        have h2 : LogExtends name s1.addrLookups s2.addrLookups := by
          have := ihAs s1 name v none; rw [hasm] at this; exact this
        have h3 := logExtends_trans h1 h2
        cases r2 with
        | ok c => simpa [get_contract_by_name, ha, hasm] using h3
        | error e => simpa [get_contract_by_name, ha, hasm] using h3
    have hAs : ∀ s name address mArg, LogExtends name s.addrLookups
        (assemble_contract env (f + 1) s name address mArg).1.addrLookups := by
      intro s name address mArg
      cases hcc : lookupKey s.contract_cache (name, address, mArg) with
      | some c =>
        simpa [assemble_contract, hcc] using logExtends_refl name s.addrLookups
      | none =>
        have habi : ∀ s1 : RPState, ∀ r : Except RPError AbiSrc,
            get_abi_by_name env f s name = (s1, r) →
            LogExtends name s.addrLookups s1.addrLookups := by
          intro s1 r hb
          have := ihB s name; rw [hb] at this; exact this
        cases hl : env.localAbi name with
        | some contents =>
          by_cases he : contents = ""
          · rcases hb : get_abi_by_name env f s name with ⟨s1, r⟩
            have h1 := habi s1 r hb
            cases r with
            | error e => simpa [assemble_contract, hcc, hl, he, hb] using h1
            | ok a => simpa [assemble_contract, hcc, hl, he, hb] using h1
          · simpa [assemble_contract, hcc, hl, he] using
              logExtends_refl name s.addrLookups
        | none =>
          rcases hb : get_abi_by_name env f s name with ⟨s1, r⟩
          have h1 := habi s1 r hb
          cases r with
          | error e => simpa [assemble_contract, hcc, hl, hb] using h1
          | ok a => simpa [assemble_contract, hcc, hl, hb] using h1
    have hB : ∀ s name, LogExtends name s.addrLookups
        (get_abi_by_name env (f + 1) s name).1.addrLookups := by
      intro s name
      cases hbc : lookupKey s.abi_cache name with
      | some a =>
        simpa [get_abi_by_name, hbc] using logExtends_refl name s.addrLookups
      | none =>
        rcases hu : uncached_get_abi_by_name env f s name with ⟨s1, r⟩
        have h1 : LogExtends name s.addrLookups s1.addrLookups := by
          have := ihUB s name; rw [hu] at this; exact this
        cases r with
        | ok a => simpa [get_abi_by_name, hbc, hu] using h1
        | error e => simpa [get_abi_by_name, hbc, hu] using h1
    have hUB : ∀ s name, LogExtends name s.addrLookups
        (uncached_get_abi_by_name env (f + 1) s name).1.addrLookups := by
      intro s name
      rcases hcon : get_contract_by_name env f s "rocketStorage" with ⟨s1, r⟩
      have h1 : LogExtends name s.addrLookups s1.addrLookups := by
        have := logExtends_of_rs (n := name) (ihC s "rocketStorage")
        rw [hcon] at this; exact this
      cases r with
      | error e => simpa [uncached_get_abi_by_name, hcon] using h1
      | ok c =>
        by_cases he : env.storageAbi name = ""
        · simpa [uncached_get_abi_by_name, hcon, he] using h1
        · simpa [uncached_get_abi_by_name, hcon, he] using h1
    exact ⟨hA, hU, hC, hAs, hB, hUB⟩

/-! ### Successful abi / bootstrap resolutions never write the registry -/

theorem addresses_eq_of_ok (env : Env) : ∀ fuel : Nat,
    (∀ s name address mArg s1 c,
      assemble_contract env fuel s name address mArg = (s1, .ok c) →
      s1.addresses = s.addresses) ∧
    (∀ s name s1 a, get_abi_by_name env fuel s name = (s1, .ok a) →
      s1.addresses = s.addresses) ∧
    (∀ s name s1 a, uncached_get_abi_by_name env fuel s name = (s1, .ok a) →
      s1.addresses = s.addresses) ∧
    (∀ s s1 c, get_contract_by_name env fuel s "rocketStorage" = (s1, .ok c) →
      s1.addresses = s.addresses) := by
  intro fuel
  induction fuel with
  | zero =>
    refine ⟨fun s name a m s1 c h => ?_, fun s name s1 a h => ?_,
      fun s name s1 a h => ?_, fun s s1 c h => ?_⟩ <;>
      simp [get_contract_by_name, assemble_contract, get_abi_by_name,
        uncached_get_abi_by_name] at h
  | succ f ih =>
    obtain ⟨ihAs, ihB, ihUB, ihC⟩ := ih
    have hAs : ∀ s name address mArg s1 c,
        assemble_contract env (f + 1) s name address mArg = (s1, .ok c) →
        s1.addresses = s.addresses := by
      intro s name address mArg s1 c h
      cases hcc : lookupKey s.contract_cache (name, address, mArg) with
      | some c0 =>
        simp only [assemble_contract, hcc, Prod.mk.injEq,
          Except.ok.injEq] at h
        obtain ⟨rfl, rfl⟩ := h
        rfl
      | none =>
        cases hl : env.localAbi name with
        | some contents =>
          by_cases he : contents = ""
          · rcases hb : get_abi_by_name env f s name with ⟨s2, r⟩
            cases r with
            | error e => simp [assemble_contract, hcc, hl, he, hb] at h
            | ok a =>
              simp only [assemble_contract, hcc, hl, he, if_pos he, hb,
                Prod.mk.injEq, Except.ok.injEq] at h
              obtain ⟨rfl, rfl⟩ := h
              exact ihB s name s2 a hb
          · simp only [assemble_contract, hcc, hl, if_neg he,
              Prod.mk.injEq, Except.ok.injEq] at h
            obtain ⟨rfl, rfl⟩ := h
            rfl
        | none =>
          rcases hb : get_abi_by_name env f s name with ⟨s2, r⟩
          cases r with
          | error e => simp [assemble_contract, hcc, hl, hb] at h
          | ok a =>
            simp only [assemble_contract, hcc, hl, hb, Prod.mk.injEq,
              Except.ok.injEq] at h
            obtain ⟨rfl, rfl⟩ := h
            exact ihB s name s2 a hb
    have hB : ∀ s name s1 a, get_abi_by_name env (f + 1) s name = (s1, .ok a) →
        s1.addresses = s.addresses := by
      intro s name s1 a h
      cases hbc : lookupKey s.abi_cache name with
      | some a0 =>
        simp only [get_abi_by_name, hbc, Prod.mk.injEq, Except.ok.injEq] at h
        obtain ⟨rfl, rfl⟩ := h
        rfl
      | none =>
        rcases hu : uncached_get_abi_by_name env f s name with ⟨s2, r⟩
        cases r with
        | error e => simp [get_abi_by_name, hbc, hu] at h
        | ok a0 =>
          simp only [get_abi_by_name, hbc, hu, Prod.mk.injEq,
            Except.ok.injEq] at h
          obtain ⟨rfl, rfl⟩ := h
          exact ihUB s name s2 a0 hu
    have hUB : ∀ s name s1 a,
        uncached_get_abi_by_name env (f + 1) s name = (s1, .ok a) →
        s1.addresses = s.addresses := by
      intro s name s1 a h
      rcases hcon : get_contract_by_name env f s "rocketStorage" with ⟨s2, r⟩
      cases r with
      | error e => simp [uncached_get_abi_by_name, hcon] at h
      | ok c =>
        by_cases he : env.storageAbi name = ""
        · simp [uncached_get_abi_by_name, hcon, he] at h
        · simp only [uncached_get_abi_by_name, hcon, if_neg he,
            Prod.mk.injEq, Except.ok.injEq] at h
          obtain ⟨rfl, rfl⟩ := h
          exact ihC s s2 c hcon
    have hC : ∀ s s1 c,
        get_contract_by_name env (f + 1) s "rocketStorage" = (s1, .ok c) →
        s1.addresses = s.addresses := by
      intro s s1 c h
      rcases ha : get_address_by_name env f s "rocketStorage" with ⟨s2, r⟩
      cases r with
      | error e => simp [get_contract_by_name, ha] at h
      | ok v =>
        simp only [get_contract_by_name, ha] at h
        have e1 : s2.addresses = s.addresses :=
          get_address_rs_ok_addresses env ha
        have e2 : s1.addresses = s2.addresses :=
          ihAs s2 "rocketStorage" v none s1 c h
        rw [e2, e1]
    exact ⟨hAs, hB, hUB, hC⟩

/-! ### The seeding loop of `flush` -/

theorem seedManual_ok (pairs : List (String × Nat)) : ∀ s s1 : RPState,
    KeysDistinct pairs →
    (∀ p ∈ pairs, p.1 ∉ s.addresses.map Prod.fst) →
    seedManual pairs s = (s1, .ok ()) →
    s1.addresses = s.addresses ++ pairs ∧
    s1.address_cache = s.address_cache ∧ s1.abi_cache = s.abi_cache ∧
    s1.contract_cache = s.contract_cache ∧ s1.multicall = s.multicall ∧
    s1.addrLookups = s.addrLookups ∧ s1.abiLookups = s.abiLookups := by
  induction pairs with
  | nil =>
    intro s s1 _ _ h
    simp only [seedManual, Prod.mk.injEq] at h
    obtain ⟨rfl, -⟩ := h
    simp
  | cons q rest ih =>
    obtain ⟨n, a⟩ := q
    intro s s1 hk hfresh h
    have hne : ∀ p ∈ s.addresses, p.1 ≠ n := by
      intro p hp hpn
      exact hfresh (n, a) (List.mem_cons_self _ _)
        (hpn ▸ List.mem_map.mpr ⟨p, hp, rfl⟩)
    rcases hput : bidict_put s.addresses n a with e | m
    · simp [seedManual, hput] at h
    · have hm : m = s.addresses ++ [(n, a)] := by
        unfold bidict_put at hput
        split at hput
        · next hmem => exact absurd rfl (hne (n, a) hmem)
        · split at hput
          · simp at hput
          · rw [← Except.ok.inj hput,
              List.filter_eq_self.mpr fun p hp => by simpa using hne p hp]
      simp only [seedManual, hput] at h
      have hk' : KeysDistinct rest := by
        simpa [KeysDistinct, List.nodup_cons] using
          (List.nodup_cons.mp hk).2
      have hhead : n ∉ rest.map Prod.fst := by
        simpa [KeysDistinct] using (List.nodup_cons.mp hk).1
      have hfresh' : ∀ p ∈ rest,
          p.1 ∉ ({s with addresses := m}).addresses.map Prod.fst := by
        intro p hp
        rw [hm]
        simp only [List.map_append, List.mem_append]
        rintro (hmem | hmem)
        · exact hfresh p (List.mem_cons_of_mem _ hp) hmem
        · simp only [List.map_cons, List.map_nil, List.mem_singleton] at hmem
          exact hhead (hmem ▸ List.mem_map.mpr ⟨p, hp, rfl⟩)
      have := ih {s with addresses := m} s1 hk' hfresh' h
      refine ⟨?_, this.2.1, this.2.2.1, this.2.2.2.1, this.2.2.2.2.1,
        this.2.2.2.2.2.1, this.2.2.2.2.2.2⟩
      rw [this.1, hm]
      simp

theorem flush_ok_state (env : Env) {s s1 : RPState}
    (hk : KeysDistinct env.manual_addresses)
    (h : flush env s = (s1, .ok ())) :
    s1.addresses = env.manual_addresses ∧ s1.address_cache = [] ∧
    s1.abi_cache = [] ∧ s1.contract_cache = [] ∧
    s1.addrLookups = s.addrLookups ∧ s1.abiLookups = s.abiLookups := by
  unfold flush at h
  have := seedManual_ok env.manual_addresses _ s1 hk (by simp) h
  refine ⟨by simpa using this.1, by simpa using this.2.1,
    by simpa using this.2.2.1, by simpa using this.2.2.2.1,
    by simpa using this.2.2.2.2.2.1, by simpa using this.2.2.2.2.2.2⟩

/-- From a freshly flushed state, a successful resolution of any
non-override name performs exactly one chain storage query, for that
name (assuming a workable bootstrap: `"rocketStorage"` among the manual
overrides and a non-empty local abi file for it). -/
theorem resolve_after_flush_hits_chain (env : Env) {rsA : Nat} {c : String}
    (hk : KeysDistinct env.manual_addresses)
    (hrs : ("rocketStorage", rsA) ∈ env.manual_addresses)
    (habi : env.localAbi "rocketStorage" = some c) (hcne : c ≠ "")
    {name : String} (hn : name ∉ env.manual_addresses.map Prod.fst)
    {s1 : RPState} (h1 : s1.addresses = env.manual_addresses)
    (h2 : s1.address_cache = []) (h3 : s1.contract_cache = [])
    {f : Nat} {v : Nat} {s2 : RPState}
    (h : get_address_by_name env (f + 4) s1 name = (s2, .ok v)) :
    s2.addrLookups = name :: s1.addrLookups := by
  have hcache : lookupKey s1.address_cache name = none := by rw [h2]; rfl
  have hreg : lookupKey s1.addresses name = none := by
    rw [h1]
    exact lookupKey_eq_none.mpr fun p hp hpn =>
      hn (hpn ▸ List.mem_map.mpr ⟨p, hp, rfl⟩)
  have hcrs : lookupKey s1.address_cache "rocketStorage" = none := by
    rw [h2]; rfl
  have hrsreg : lookupKey s1.addresses "rocketStorage" = some rsA := by
    rw [h1]; exact lookupKey_of_mem hk hrs
  have eA : get_address_by_name env (f + 1) s1 "rocketStorage" =
      ({s1 with address_cache := [("rocketStorage", rsA)]}, .ok rsA) := by
    simp [get_address_by_name, hcrs, hrsreg, h2, fifoInsert, lookupKey]
  have eAsm : assemble_contract env (f + 1)
      {s1 with address_cache := [("rocketStorage", rsA)]}
      "rocketStorage" rsA none =
      ({s1 with
          address_cache := [("rocketStorage", rsA)]
          contract_cache := [(("rocketStorage", rsA, none),
            ⟨rsA, .localFile c, false⟩)]},
       .ok ⟨rsA, .localFile c, false⟩) := by
    simp [assemble_contract, h3, habi, hcne, fifoInsert, lookupKey]
  have eC : get_contract_by_name env (f + 2) s1 "rocketStorage" =
      ({s1 with
          address_cache := [("rocketStorage", rsA)]
          contract_cache := [(("rocketStorage", rsA, none),
            ⟨rsA, .localFile c, false⟩)]},
       .ok ⟨rsA, .localFile c, false⟩) := by
    simp [get_contract_by_name, eA, eAsm]
  by_cases hz : env.storageAddress name = 0
  · have eU : uncached_get_address_by_name env (f + 3) s1 name =
        ({s1 with
            address_cache := [("rocketStorage", rsA)]
            contract_cache := [(("rocketStorage", rsA, none),
              ⟨rsA, .localFile c, false⟩)]
            addrLookups := name :: s1.addrLookups},
         .error (.notFound name)) := by
      simp [uncached_get_address_by_name, eC, hz]
    simp [get_address_by_name, hcache, hreg, eU] at h
  · rcases hput : bidict_put s1.addresses name (env.storageAddress name)
      with e | m
    · have eU : uncached_get_address_by_name env (f + 3) s1 name =
          ({s1 with
              address_cache := [("rocketStorage", rsA)]
              contract_cache := [(("rocketStorage", rsA, none),
                ⟨rsA, .localFile c, false⟩)]
              addrLookups := name :: s1.addrLookups},
           .error e) := by
        simp [uncached_get_address_by_name, eC, hz, hput]
      simp [get_address_by_name, hcache, hreg, eU] at h
    · have eU : uncached_get_address_by_name env (f + 3) s1 name =
          ({s1 with
              address_cache := [("rocketStorage", rsA)]
              contract_cache := [(("rocketStorage", rsA, none),
                ⟨rsA, .localFile c, false⟩)]
              addrLookups := name :: s1.addrLookups
              addresses := m},
           .ok (env.storageAddress name)) := by
        simp [uncached_get_address_by_name, eC, hz, hput]
      simp only [get_address_by_name, hcache, hreg, eU, Prod.mk.injEq,
        Except.ok.injEq] at h
      obtain ⟨rfl, rfl⟩ := h
      rfl

/-! ### Concrete demonstration environment -/

/-- A small concrete chain / filesystem / configuration used by the
witnesses: two manual overrides, local abi files for the storage and
deposit contracts and for `"acontract"`, a local-but-empty abi file for
`"minipool2"`, and a chain storage contract mapping both `"a"` and
`"b"` to address `5` and everything unknown to the zero address. -/
def demoEnv : Env where
  storageAddress := fun n =>
    if n = "a" then 5 else if n = "b" then 5 else
    if n = "minipool" then 11 else 0
  storageAbi := fun n =>
    if n = "minipool" then "comp" else
    if n = "minipool2" then "comp2" else ""
  localAbi := fun n =>
    if n = "rocketStorage" then some "rsabi" else
    if n = "minipool2" then some "" else
    if n = "acontract" then some "aabi" else
    if n = "casperDeposit" then some "cdabi" else none
  manual_addresses := [("rocketStorage", 7), ("casperDeposit", 9)]
  multicallOk := true
  replay := fun p _ => if p.gas = 1 then .valueError (-32000) else .success
  callResult := fun _ _ => 42
  estimateGasResult := fun _ _ _ => 21000

/-- The state right after construction (`__init__` runs `flush`). -/
def demoState : RPState := (flush demoEnv initialState).1

/-- The state `demoState` after one successful resolution of `"a"`. -/
def demoStateA : RPState := (get_address_by_name demoEnv 10 demoState "a").1

/-- The contract handle assembled for `"rocketStorage"` in `demoEnv`. -/
def demoRSContract : Contract := ⟨7, .localFile "rsabi", false⟩

/-- The state after assembling the `"rocketStorage"` contract once. -/
def demoRSState : RPState :=
  (get_contract_by_name demoEnv 3 demoState "rocketStorage").1

/-! ### Claim C1 -/

/-- C1, counterexample.  With `"a" ↦ 5` already in the registry and
the chain mapping `"b"` to the same address `5`, resolving `"b"` does
not overwrite the `("a", 5)` entry as the claim states: the bidict write
raises `ValueDuplicationError`, resolution fails, and afterwards address
`5` is still bound to `"a"`, not to `"b"`. -/
theorem c1_counterexample :
    lookupVal demoStateA.addresses 5 = some "a" ∧
    (get_address_by_name demoEnv 10 demoStateA "b").2 =
      .error .valueDuplication ∧
    lookupVal (get_address_by_name demoEnv 10 demoStateA "b").1.addresses 5 =
      some "a" := by decide

/-- C1, amended.  The registry write `self.addresses[name] = address`
(`bidict_put`, used by `uncached_get_address_by_name` and by the seeding
loop of `flush`) does not silently remove a prior entry mapping a
*different* name to the same address: in that situation it raises
`ValueDuplicationError` and changes nothing.  In every case in which the
write succeeds on a bijective registry, any prior address under the same
name is dropped, the registry stays a bijection, and immediately after
insertion `addressOf(name) = address` and `nameOf(address) = name`. -/
theorem c1_registry_insert (m : List (String × Nat)) (k : String) (v : Nat)
    (hbij : BijReg m) :
    (∀ m', bidict_put m k v = .ok m' →
      BijReg m' ∧ lookupKey m' k = some v ∧ lookupVal m' v = some k) ∧
    ((∃ p ∈ m, p.2 = v ∧ p.1 ≠ k) →
      bidict_put m k v = .error .valueDuplication) := by
  constructor
  · intro m' h
    exact bidict_put_bij hbij h
  · intro hdup
    have hnmem : (k, v) ∉ m := fun hmem => by
      obtain ⟨p, hp, hpv, hpk⟩ := hdup
      have hpe : p = (k, v) :=
        List.inj_on_of_nodup_map (f := Prod.snd) hbij.2 hp hmem
          (by simpa using hpv)
      exact hpk (congrArg Prod.fst hpe)
    simp [bidict_put, hnmem, hdup]

theorem c1_registry_insert_witness :
    BijReg [("x", 1), ("y", 2)] ∧
    lookupKey [("x", 1), ("y", 2)] "y" = some 2 ∧
    lookupVal [("x", 1), ("y", 2)] 2 = some "y" :=
  (c1_registry_insert [("x", 1)] "y" 2 (by decide)).1
    [("x", 1), ("y", 2)] (by decide)

/-! ### Claim C2 -/

/-- C2.  When `flush` completes, all three caches are empty and the
registry holds exactly the configured manual overrides, in order, and
nothing else; consequently a name outside the overrides has neither a
cached address nor a registry entry, and its next successful resolution
(given a workable `"rocketStorage"` bootstrap) queries the chain storage
contract again, exactly once. -/
theorem c2_flush (env : Env) (s s1 : RPState)
    (hk : KeysDistinct env.manual_addresses)
    (h : flush env s = (s1, .ok ())) :
    s1.address_cache = [] ∧ s1.abi_cache = [] ∧ s1.contract_cache = [] ∧
    s1.addresses = env.manual_addresses ∧
    (∀ name, name ∉ env.manual_addresses.map Prod.fst →
      lookupKey s1.address_cache name = none ∧
      lookupKey s1.addresses name = none) ∧
    (∀ rsA c, ("rocketStorage", rsA) ∈ env.manual_addresses →
      env.localAbi "rocketStorage" = some c → c ≠ "" →
      ∀ name, name ∉ env.manual_addresses.map Prod.fst →
      ∀ f v s2, get_address_by_name env (f + 4) s1 name = (s2, .ok v) →
        s2.addrLookups = name :: s1.addrLookups) := by
  obtain ⟨e1, e2, e3, e4, -, -⟩ := flush_ok_state env hk h
  refine ⟨e2, e3, e4, e1, ?_, ?_⟩
  · intro name hn
    refine ⟨by rw [e2]; rfl, ?_⟩
    rw [e1]
    exact lookupKey_eq_none.mpr fun p hp hpn =>
      hn (hpn ▸ List.mem_map.mpr ⟨p, hp, rfl⟩)
  · intro rsA c hrs habi hcne name hn f v s2 hacc
    exact resolve_after_flush_hits_chain env hk hrs habi hcne hn e1 e2 e4 hacc

theorem c2_flush_witness :
    demoState.address_cache = [] ∧ demoState.abi_cache = [] ∧
    demoState.contract_cache = [] ∧
    demoState.addresses = demoEnv.manual_addresses :=
  ⟨(c2_flush demoEnv initialState demoState (by decide) (by decide)).1,
   (c2_flush demoEnv initialState demoState (by decide) (by decide)).2.1,
   (c2_flush demoEnv initialState demoState (by decide) (by decide)).2.2.1,
   (c2_flush demoEnv initialState demoState (by decide) (by decide)).2.2.2.1⟩

/-! ### Claim C3 -/

/-- C3.  If `resolveAddress(name)` succeeds, every later call with no
flush in between returns the identical address and leaves the state
exactly as it was — in particular it performs no further chain storage
query — and the first call itself queried the chain for `name` at most
once. -/
theorem c3_resolve_idempotent (env : Env) (f g : Nat) (s : RPState)
    (name : String) (v : Nat) (s1 : RPState)
    (h : get_address_by_name env f s name = (s1, .ok v)) :
    get_address_by_name env (g + 1) s1 name = (s1, .ok v) ∧
    s1.addrLookups.count name ≤ s.addrLookups.count name + 1 := by
  refine ⟨get_address_cached_hit env g (get_address_ok_cached env h), ?_⟩
  cases f with
  | zero => simp [get_address_by_name] at h
  | succ f' =>
    cases hc : lookupKey s.address_cache name with
    | some w =>
      simp only [get_address_by_name, hc, Prod.mk.injEq, Except.ok.injEq] at h
      obtain ⟨rfl, rfl⟩ := h
      omega
    | none =>
      cases hr : lookupKey s.addresses name with
      | some w =>
        simp only [get_address_by_name, hc, hr, Prod.mk.injEq,
          Except.ok.injEq] at h
        obtain ⟨rfl, rfl⟩ := h
        simp
      | none =>
        by_cases hname : name = "rocketStorage"
        · subst hname
          simp [get_address_by_name, hc, hr,
            (rocketStorage_stuck env f' s hc hr).1] at h
        · cases f' with
          | zero =>
            simp [get_address_by_name, hc, hr,
              uncached_get_address_by_name] at h
          | succ f'' =>
            rcases hcon : get_contract_by_name env f'' s "rocketStorage"
              with ⟨sA, rA⟩
            cases rA with
            | error e =>
              simp [get_address_by_name, hc, hr,
                uncached_get_address_by_name, hcon] at h
            | ok cc =>
              have hlog : sA.addrLookups.count name =
                  s.addrLookups.count name := by
                have hle := (addr_log env f'').2.2.1 s "rocketStorage"
                rw [hcon] at hle
                exact logExtends_rs_count hle hname
              by_cases hz : env.storageAddress name = 0
              · simp [get_address_by_name, hc, hr,
                  uncached_get_address_by_name, hcon, hz] at h
              · rcases hput : bidict_put sA.addresses name
                  (env.storageAddress name) with e | mreg
                · simp [get_address_by_name, hc, hr,
                    uncached_get_address_by_name, hcon, hz, hput] at h
                · simp only [get_address_by_name, hc, hr,
                    uncached_get_address_by_name, hcon, if_neg hz, hput,
                    Prod.mk.injEq, Except.ok.injEq] at h
                  obtain ⟨rfl, rfl⟩ := h
                  simp only [List.count_cons]
                  simp [hlog]

theorem c3_resolve_idempotent_witness :
    get_address_by_name demoEnv 11 demoStateA "a" = (demoStateA, .ok 5) ∧
    demoStateA.addrLookups.count "a" ≤ demoState.addrLookups.count "a" + 1 :=
  c3_resolve_idempotent demoEnv 10 10 demoState "a" 5 demoStateA (by decide)

/-! ### Claim C4 -/

/-- C4.  For a name in neither the cache nor the registry, when the
chain storage contract returns the zero address for it, resolution fails
with the not-found error and the registry is exactly what it was before
the call — no partial insert of the name happens (the only state changes
are the caching of the `"rocketStorage"` bootstrap contract and the
ghost log entry). -/
theorem c4_zero_address (env : Env) (f : Nat) (s s1 : RPState)
    (name : String) (c : Contract)
    (hc : lookupKey s.address_cache name = none)
    (hr : lookupKey s.addresses name = none)
    (hz : env.storageAddress name = 0)
    (hrs : get_contract_by_name env f s "rocketStorage" = (s1, .ok c)) :
    get_address_by_name env (f + 2) s name =
      ({s1 with addrLookups := name :: s1.addrLookups},
       .error (.notFound name)) ∧
    s1.addresses = s.addresses := by
  have heq : s1.addresses = s.addresses :=
    (addresses_eq_of_ok env f).2.2.2 s s1 c hrs
  refine ⟨?_, heq⟩
  have hu : uncached_get_address_by_name env (f + 1) s name =
      ({s1 with addrLookups := name :: s1.addrLookups},
       .error (.notFound name)) := by
    simp [uncached_get_address_by_name, hrs, hz]
  simp [get_address_by_name, hc, hr, hu]

theorem c4_zero_address_witness :
    get_address_by_name demoEnv 5 demoState "z" =
      ({demoRSState with addrLookups := "z" :: demoRSState.addrLookups},
       .error (.notFound "z")) ∧
    demoRSState.addresses = demoState.addresses :=
  c4_zero_address demoEnv 3 demoState demoRSState "z" demoRSContract
    (by decide) (by decide) (by decide) (by decide)

/-! ### Claim C5 -/

theorem get_function_invalid_path (env : Env) (f : Nat) (s : RPState)
    (path : String) (args : List Nat) (address : Option Nat)
    (mainnet : Bool) :
    (∃ k, (get_function env (f + 1) s path args address mainnet).2 =
      .error (.invalidPath k)) ↔ dotCount path ≠ 1 := by
  have hlen := splitDots_length path
  rcases hs : splitDots path with _ | ⟨n, _ | ⟨fn, _ | ⟨q, rest⟩⟩⟩
  · rw [hs] at hlen; simp at hlen
  · rw [hs] at hlen
    simp only [List.length_singleton] at hlen
    constructor
    · intro _; omega
    · intro _; exact ⟨1, by simp [get_function, hs]⟩
  · rw [hs] at hlen
    simp only [List.length_cons, List.length_nil] at hlen
    constructor
    · rintro ⟨k, hk⟩
      exfalso
      cases hta : pyTruthyAddress address with
      | some a =>
        rcases hasm : assemble_contract env f s n a (some mainnet) with ⟨s2, r2⟩
        cases r2 with
        | ok c => simp [get_function, hs, hta, hasm] at hk
        | error e =>
          have hni := (no_invalid_path env f).2.2.2.1 s n a (some mainnet) k
          rw [hasm] at hni
          simp only [get_function, hs, hta, hasm] at hk
          exact hni (by simp [Except.error.inj hk])
      | none =>
        rcases ha : get_address_by_name env f s n with ⟨s1, r⟩
        cases r with
        | error e =>
          have hni := (no_invalid_path env f).1 s n k
          rw [ha] at hni
          simp only [get_function, hs, hta, ha] at hk
          exact hni (by simp [Except.error.inj hk])
        | ok a =>
          rcases hasm : assemble_contract env f s1 n a (some mainnet)
            with ⟨s2, r2⟩
          cases r2 with
          | ok c => simp [get_function, hs, hta, ha, hasm] at hk
          | error e =>
            have hni := (no_invalid_path env f).2.2.2.1 s1 n a (some mainnet) k
            rw [hasm] at hni
            simp only [get_function, hs, hta, ha, hasm] at hk
            exact hni (by simp [Except.error.inj hk])
    · intro hd; exact absurd (by omega) hd
  · rw [hs] at hlen
    simp only [List.length_cons] at hlen
    constructor
    · intro _; omega
    · intro _
      exact ⟨rest.length + 3, by simp [get_function, hs]⟩

theorem estimate_gas_invalid_path (env : Env) (f : Nat) (s : RPState)
    (path : String) (args : List Nat) (block : String) :
    (∃ k, (estimate_gas_for_call env (f + 1) s path args block).2 =
      .error (.invalidPath k)) ↔ dotCount path ≠ 1 := by
  have hlen := splitDots_length path
  rcases hs : splitDots path with _ | ⟨n, _ | ⟨fn, _ | ⟨q, rest⟩⟩⟩
  · rw [hs] at hlen; simp at hlen
  · rw [hs] at hlen
    simp only [List.length_singleton] at hlen
    constructor
    · intro _; omega
    · intro _; exact ⟨1, by simp [estimate_gas_for_call, hs]⟩
  · rw [hs] at hlen
    simp only [List.length_cons, List.length_nil] at hlen
    constructor
    · rintro ⟨k, hk⟩
      exfalso
      rcases hcon : get_contract_by_name env f s n with ⟨s1, r⟩
      cases r with
      | ok c => simp [estimate_gas_for_call, hs, hcon] at hk
      | error e =>
        have hni := (no_invalid_path env f).2.2.1 s n k
        rw [hcon] at hni
        simp only [estimate_gas_for_call, hs, hcon] at hk
        exact hni (by simp [Except.error.inj hk])
    · intro hd; exact absurd (by omega) hd
  · rw [hs] at hlen
    simp only [List.length_cons] at hlen
    constructor
    · intro _; omega
    · intro _
      exact ⟨rest.length + 3, by simp [estimate_gas_for_call, hs]⟩

/-- C5, counterexample.  The path `"acontract."` does *not* split
into two non-empty parts (the function part is empty), yet `get_function`
does not fail: `path.split(".")` keeps empty fragments, `len(parts)` is
`2`, and the call succeeds, returning a bound call with the empty
function name. -/
theorem c5_counterexample :
    splitDots "acontract." = ["acontract", ""] ∧
    (get_function demoEnv 10 demoState "acontract." [] (some 3) false).2 =
      .ok ⟨⟨3, .localFile "aabi", false⟩, "", []⟩ := by decide

/-- C5, amended.  The path parsing of `get_function`,
`estimate_gas_for_call` and `call` fails with the invalid-path error iff
the path does not split into exactly two parts on dots — equivalently,
iff the number of dots differs from one.  The parts are *not* required
to be non-empty: a path such as `"a."` parses into `("a", "")`. -/
theorem c5_path_parse (env : Env) (f : Nat) (s : RPState) (path : String)
    (args : List Nat) (block : String) (address : Option Nat)
    (mainnet : Bool) :
    ((∃ k, (get_function env (f + 1) s path args address mainnet).2 =
      .error (.invalidPath k)) ↔ dotCount path ≠ 1) ∧
    ((∃ k, (estimate_gas_for_call env (f + 1) s path args block).2 =
      .error (.invalidPath k)) ↔ dotCount path ≠ 1) ∧
    ((∃ k, (call env (f + 2) s path args block address mainnet).2 =
      .error (.invalidPath k)) ↔ dotCount path ≠ 1) := by
  have hgf := get_function_invalid_path env f s path args address mainnet
  refine ⟨hgf, estimate_gas_invalid_path env f s path args block, ?_⟩
  rcases hr : get_function env (f + 1) s path args address mainnet with ⟨s1, r⟩
  constructor
  · rintro ⟨k, hk⟩
    apply hgf.mp
    cases r with
    | ok bc => simp [call, hr] at hk
    | error e =>
      refine ⟨k, ?_⟩
      rw [hr]
      simp only [call, hr] at hk
      simp [Except.error.inj hk]
  · intro hd
    obtain ⟨k, hk⟩ := hgf.mpr hd
    rw [hr] at hk
    cases r with
    | ok bc => simp at hk
    | error e =>
      simp only at hk
      exact ⟨k, by simp [call, hr, Except.error.inj hk]⟩

theorem c5_path_parse_witness :
    ((∃ k, (get_function demoEnv (9 + 1) demoState "a.b.c" [] none false).2 =
      .error (.invalidPath k)) ↔ dotCount "a.b.c" ≠ 1) ∧
    ((∃ k, (estimate_gas_for_call demoEnv (9 + 1) demoState "a.b.c" []
      "latest").2 = .error (.invalidPath k)) ↔ dotCount "a.b.c" ≠ 1) ∧
    ((∃ k, (call demoEnv (9 + 2) demoState "a.b.c" [] "latest" none
      false).2 = .error (.invalidPath k)) ↔ dotCount "a.b.c" ≠ 1) :=
  c5_path_parse demoEnv 9 demoState "a.b.c" [] "latest" none false

/-! ### Claim C6 -/

/-- C6, counterexample.  `"minipool2"` *has* a local abi override
file available (it exists, with empty contents), yet `assemble_contract`
does not use it: `if not abi:` treats the empty string as missing and
the cached/on-chain abi lookup *is* performed (visible both in the
returned handle's abi and in the ghost chain-query log). -/
theorem c6_counterexample :
    demoEnv.localAbi "minipool2" = some "" ∧
    (assemble_contract demoEnv 10 demoState "minipool2" 5 none).2 =
      .ok ⟨5, .chainDecoded "comp2", false⟩ ∧
    (assemble_contract demoEnv 10 demoState "minipool2" 5 none).1.abiLookups =
      ["minipool2"] := by decide

/-- C6, amended.  Whenever the local abi override file exists *with
non-empty contents*, `assemble_contract` uses those contents as the abi
and never performs the cached/on-chain abi lookup: neither the abi cache
nor the ghost chain-query log changes, and on a contract-cache miss the
returned handle carries the file contents. -/
theorem c6_local_override (env : Env) (f : Nat) (s : RPState) (name : String)
    (address : Nat) (mArg : Option Bool) (c : String)
    (hl : env.localAbi name = some c) (hne : c ≠ "") :
    (assemble_contract env (f + 1) s name address mArg).1.abiLookups =
      s.abiLookups ∧
    (assemble_contract env (f + 1) s name address mArg).1.abi_cache =
      s.abi_cache ∧
    (lookupKey s.contract_cache (name, address, mArg) = none →
      (assemble_contract env (f + 1) s name address mArg).2 =
        .ok ⟨address, .localFile c, mArg.getD false⟩) := by
  cases hcc : lookupKey s.contract_cache (name, address, mArg) with
  | some c0 =>
    exact ⟨by simp [assemble_contract, hcc], by simp [assemble_contract, hcc],
      fun hnone => absurd hnone (by simp)⟩
  | none =>
    refine ⟨?_, ?_, fun _ => ?_⟩ <;> simp [assemble_contract, hcc, hl, hne]

theorem c6_local_override_witness :
    (assemble_contract demoEnv 1 demoState "rocketStorage" 7 none).1.abiLookups
      = demoState.abiLookups ∧
    (assemble_contract demoEnv 1 demoState "rocketStorage" 7 none).1.abi_cache
      = demoState.abi_cache ∧
    (lookupKey demoState.contract_cache ("rocketStorage", 7, none) = none →
      (assemble_contract demoEnv 1 demoState "rocketStorage" 7 none).2 =
        .ok ⟨7, .localFile "rsabi", false⟩) :=
  c6_local_override demoEnv 0 demoState "rocketStorage" 7 none "rsabi"
    (by decide) (by decide)

/-! ### Claim C7 -/

/-- C7.  `get_revert_reason` replays the transaction's exact call
parameters at its mined block and maps the outcome: a successful replay
yields no reason; a chain-reported logic revert yields the joined revert
message(s); a generic invocation error yields the fixed string
`"Out of gas"` for code `-32000` and the generic hidden-error string for
every other code. -/
theorem c7_revert_reason (env : Env) (tnx : Tnx) :
    (env.replay (callParamsOf tnx) tnx.blockNumber = .success →
      get_revert_reason env tnx = none) ∧
    (∀ args, env.replay (callParamsOf tnx) tnx.blockNumber =
        .contractLogicError args →
      get_revert_reason env tnx = some (String.intercalate ", " args)) ∧
    (env.replay (callParamsOf tnx) tnx.blockNumber = .valueError (-32000) →
      get_revert_reason env tnx = some "Out of gas") ∧
    (∀ code, code ≠ -32000 →
      env.replay (callParamsOf tnx) tnx.blockNumber = .valueError code →
      get_revert_reason env tnx = some "Hidden Error") := by
  refine ⟨fun h => by simp [get_revert_reason, h],
    fun args h => by simp [get_revert_reason, h],
    fun h => by simp [get_revert_reason, h],
    fun code hne h => by simp [get_revert_reason, h, hne]⟩

theorem c7_revert_reason_witness :
    get_revert_reason demoEnv ⟨1, 2, "x", 1, 4, 5, 6⟩ = some "Out of gas" ∧
    get_revert_reason demoEnv ⟨1, 2, "x", 3, 4, 5, 6⟩ = none :=
  ⟨(c7_revert_reason demoEnv ⟨1, 2, "x", 1, 4, 5, 6⟩).2.2.1 (by decide),
   (c7_revert_reason demoEnv ⟨1, 2, "x", 3, 4, 5, 6⟩).1 (by decide)⟩

/-! ### Claim C8 -/

/-- The contract handle assembled for `"casperDeposit"` in `demoEnv`. -/
def demoCDContract : Contract := ⟨9, .localFile "cdabi", false⟩

/-- The state after assembling the `"casperDeposit"` contract once. -/
def demoCDState : RPState :=
  (get_contract_by_name demoEnv 3 demoState "casperDeposit").1

/-- C8.  `get_pubkey_using_transaction` returns the pubkey (as hex)
of the *first* log entry decoding as the well-known `DepositEvent`, no
matter how many undecodable or unrelated entries precede or follow it —
those are skipped silently, never raised — and returns `None` when no
entry matches. -/
theorem c8_pubkey (env : Env) (f : Nat) (s s1 : RPState) (c : Contract)
    (pre post : List LogEntry) (pk : List Nat)
    (hcd : get_contract_by_name env f s "casperDeposit" = (s1, .ok c))
    (hpre : ∀ l ∈ pre, depositPubkey l = none) :
    get_pubkey_using_transaction env (f + 1) s
      (pre ++ LogEntry.deposit pk :: post) =
      (s1, .ok (some (bytesToHex pk))) ∧
    (∀ receipt, (∀ l ∈ receipt, depositPubkey l = none) →
      get_pubkey_using_transaction env (f + 1) s receipt = (s1, .ok none)) := by
  have hpre0 : pre.filterMap depositPubkey = [] :=
    List.filterMap_eq_nil_iff.mpr hpre
  have hfm : processReceipt (pre ++ LogEntry.deposit pk :: post) =
      pk :: processReceipt post := by
    simp [processReceipt, List.filterMap_append, hpre0, depositPubkey]
  constructor
  · simp [get_pubkey_using_transaction, hcd, hfm]
  · intro receipt hnone
    have hz : processReceipt receipt = [] := List.filterMap_eq_nil_iff.mpr hnone
    simp [get_pubkey_using_transaction, hcd, hz]

theorem c8_pubkey_witness :
    get_pubkey_using_transaction demoEnv 4 demoState
      ([LogEntry.mismatched] ++
        LogEntry.deposit [171, 1] :: [LogEntry.deposit [2]]) =
      (demoCDState, .ok (some (bytesToHex [171, 1]))) :=
  (c8_pubkey demoEnv 3 demoState demoCDState demoCDContract
    [LogEntry.mismatched] [LogEntry.deposit [2]] [171, 1]
    (by decide) (by decide)).1

/-! ### Claim C9 -/

/-- C9.  Between two flushes: a pair recorded in the registry stays
in the registry across *every* public operation (even after its entry is
evicted from the bounded FIFO address cache), and a later
`resolveAddress` of that name returns the registry's address without any
further chain storage query (the ghost log does not change). -/
theorem c9_registry_persistence (env : Env) (fuel : Nat) (s : RPState)
    (name : String) (a : Nat) (hk : KeysDistinct s.addresses)
    (hco : Coherent s) (hmem : (name, a) ∈ s.addresses) :
    (∀ op, (name, a) ∈ (runOp env fuel op s).addresses) ∧
    (∀ f, ∃ s2, get_address_by_name env (f + 1) s name = (s2, .ok a) ∧
      s2.addrLookups = s.addrLookups ∧ (name, a) ∈ s2.addresses) := by
  constructor
  · intro op; exact runOp_registry_mono env fuel op s hmem
  · intro f
    cases hc : lookupKey s.address_cache name with
    | some w =>
      have hw : (name, w) ∈ s.addresses := hco (name, w) (mem_of_lookupKey hc)
      have hwa : w = a := lookupKey_unique hk hw hmem
      subst hwa
      exact ⟨s, get_address_cached_hit env f hc, rfl, hmem⟩
    | none =>
      have hr : lookupKey s.addresses name = some a := lookupKey_of_mem hk hmem
      exact ⟨{s with address_cache := fifoInsert 2048 s.address_cache name a},
        by simp [get_address_by_name, hc, hr], rfl, hmem⟩

theorem c9_registry_persistence_witness :
    ("a", 5) ∈ (runOp demoEnv 10 (Op.resolve "b") demoStateA).addresses ∧
    ∃ s2, get_address_by_name demoEnv 4 demoStateA "a" = (s2, .ok 5) ∧
      s2.addrLookups = demoStateA.addrLookups ∧ ("a", 5) ∈ s2.addresses :=
  ⟨(c9_registry_persistence demoEnv 10 demoStateA "a" 5 (by decide)
      (by decide) (by decide)).1 (Op.resolve "b"),
   (c9_registry_persistence demoEnv 10 demoStateA "a" 5 (by decide)
      (by decide) (by decide)).2 3⟩

/-! ### Claim C10 -/

/-- C10.  Supplying a falsy `address` to `get_function` (python
`None` or `0`; `if not address:`) behaves exactly as supplying no
address at all: the argument is discarded and the address is re-resolved
from the contract name, with identical result and state. -/
theorem c10_falsy_address (env : Env) (fuel : Nat) (s : RPState)
    (path : String) (args : List Nat) (address : Option Nat) (mainnet : Bool)
    (hfalsy : pyTruthyAddress address = none) :
    get_function env fuel s path args address mainnet =
      get_function env fuel s path args none mainnet := by
  cases fuel with
  | zero => rfl
  | succ f =>
    have h0 : pyTruthyAddress none = none := rfl
    rcases hs : splitDots path with _ | ⟨n, _ | ⟨fn, _ | ⟨q, rest⟩⟩⟩ <;>
      simp [get_function, hs, hfalsy, h0]

theorem c10_falsy_address_witness :
    get_function demoEnv 10 demoState "rocketStorage.getAddress" [3] (some 0)
      false =
    get_function demoEnv 10 demoState "rocketStorage.getAddress" [3] none
      false :=
  c10_falsy_address demoEnv 10 demoState "rocketStorage.getAddress" [3]
    (some 0) false (by decide)

end RocketPool
